import Mathlib

/-!
# Governance vote ledger (`CGovernanceObjectVoteFile`)

A shallow embedding of `src/governance-votedb.cpp`.

* `std::list<CGovernanceVote> listVotes` is a list of nodes. Every node carries
  the address it lives at, because `mapVoteIndex` stores list iterators, and a
  `std::list` iterator is a reference to a node that stays valid while other
  nodes are inserted or erased.
* `std::map<uint256, vote_l_it> mapVoteIndex` is an association list from hash
  to node address. The code never walks the map, so the order of its entries is
  not observable; a `std::map` holds at most one entry per key, which is the
  `keys.Nodup` part of `LedgerInv`.
* `nMemoryVotes` is an integer counter. Its declaration (governance-votedb.h)
  is not part of the sources at hand, so it is an unbounded `Int` here.
* The `while (it != listVotes.end())` loops are recursions over the part of the
  list from `it` on, threading the counter, the index and the result
  accumulator in the order the loop body updates them.
-/

namespace Polis

/-- A 256-bit hash value. The ledger only compares hashes for equality. -/
abbrev uint256 := Nat

/-- A transaction outpoint: transaction hash and output position. -/
structure COutPoint where
  hash : uint256
  n : Nat
deriving DecidableEq, Repr

/-- Modelled from the spec: the enumerator `VOTE_SIGNAL_FUNDING` is declared in
governance-vote.h, which is not among the sources. The ledger only tests a
vote's signal for equality with it. -/
def VOTE_SIGNAL_FUNDING : Int := 1

/-- Modelled from the spec: the class `CGovernanceVote` is declared in
governance-vote.h, which is not among the sources. The fields are the attributes
the spec lists for a vote (signer outpoint, governance-object reference, signal,
outcome, timestamp, signature) and its content hash. The hash is a field of its
own, so that nothing is assumed about which votes share a hash. -/
structure CGovernanceVote where
  nVoteSignal : Int
  masternodeOutpoint : COutPoint
  nParentHash : uint256
  nVoteOutcome : Int
  nTime : Int
  vchSig : List Nat
  hash : uint256
deriving DecidableEq, Repr

namespace CGovernanceVote

def GetHash (v : CGovernanceVote) : uint256 := v.hash

def GetMasternodeOutpoint (v : CGovernanceVote) : COutPoint := v.masternodeOutpoint

def GetSignal (v : CGovernanceVote) : Int := v.nVoteSignal

def GetTimestamp (v : CGovernanceVote) : Int := v.nTime

end CGovernanceVote

/-- A node of `std::list<CGovernanceVote>`: the address of the node and the vote
stored in it. A list iterator (`vote_l_it`) is the address of a node. -/
structure ListNode where
  addr : Nat
  vote : CGovernanceVote
deriving DecidableEq, Repr

/-- The type `std::map<uint256, vote_l_it>`: entries (hash, node address). -/
abbrev vote_m_t := List (uint256 × Nat)

namespace vote_m_t

/-- The call `m.find(k)`: the iterator stored under `k`, `none` for `m.end()`. -/
def find (m : vote_m_t) (k : uint256) : Option Nat :=
  match m with
  | [] => none
  | e :: rest => if e.1 = k then some e.2 else find rest k

/-- The call `m.emplace(k, it)`: inserts unless the key is present. -/
def emplace (m : vote_m_t) (k : uint256) (it : Nat) : vote_m_t :=
  match find m k with
  | some _ => m
  | none => (k, it) :: m

/-- The call `m.erase(k)`: removes the entry with key `k`, if any. -/
def erase (m : vote_m_t) (k : uint256) : vote_m_t :=
  m.filter (fun e => decide (e.1 ≠ k))

/-- The assignment `m[k] = it`: overwrites the entry of `k` or inserts one. -/
def assign (m : vote_m_t) (k : uint256) (it : Nat) : vote_m_t :=
  match m with
  | [] => [(k, it)]
  | e :: rest => if e.1 = k then (k, it) :: rest else e :: assign rest k it

/-- The keys of the map. -/
def keys (m : vote_m_t) : List uint256 := m.map Prod.fst

/-- The call `m.size()`. -/
def size (m : vote_m_t) : Nat := m.length

end vote_m_t

/-- The class `CGovernanceObjectVoteFile`. -/
structure CGovernanceObjectVoteFile where
  nMemoryVotes : Int
  listVotes : List ListNode
  mapVoteIndex : vote_m_t
deriving DecidableEq, Repr

/-- The bytes of a `CDataStream`. -/
abbrev CDataStream := List Nat

/-- The address `push_front` gives the new node: one not used by a node of the
list. Only this freshness is used. -/
def newNodeAddr (l : List ListNode) : Nat :=
  (l.map ListNode.addr).foldr max 0 + 1

/-- Dereferencing a list iterator: the vote of the node at that address, `none`
when no node of the list lives there (a dangling iterator). -/
def derefIt (l : List ListNode) (it : Nat) : Option CGovernanceVote :=
  match l with
  | [] => none
  | nd :: rest => if nd.addr = it then some nd.vote else derefIt rest it

namespace CGovernanceObjectVoteFile

/-- The default constructor: the empty ledger. -/
def empty : CGovernanceObjectVoteFile :=
  { nMemoryVotes := 0, listVotes := [], mapVoteIndex := [] }

/-- The method `HasVote(nHash)`: `mapVoteIndex.find(nHash) != mapVoteIndex.end()`. -/
def HasVote (f : CGovernanceObjectVoteFile) (nHash : uint256) : Bool :=
  (f.mapVoteIndex.find nHash).isSome

/-- The method `AddVote(vote)`: nothing happens when the hash is in the index;
otherwise `push_front`, `emplace` of the new node's iterator, `++nMemoryVotes`. -/
def AddVote (f : CGovernanceObjectVoteFile) (vote : CGovernanceVote) :
    CGovernanceObjectVoteFile :=
  let nHash := vote.GetHash
  if f.HasVote nHash then f
  else
    let node : ListNode := { addr := newNodeAddr f.listVotes, vote := vote }
    { nMemoryVotes := f.nMemoryVotes + 1
      listVotes := node :: f.listVotes
      mapVoteIndex := f.mapVoteIndex.emplace nHash node.addr }

/-- The method `SerializeVoteToStream(nHash, ss)`, a const method: the ledger is handed
back as it was. `ser` is the serialization of a vote (`ss << vote` appends it).
The result is `none` when the stored iterator is dangling, where the C++
behaviour is undefined. -/
def SerializeVoteToStream (ser : CGovernanceVote → List Nat)
    (f : CGovernanceObjectVoteFile) (nHash : uint256) (ss : CDataStream) :
    Option (CGovernanceObjectVoteFile × Bool × CDataStream) :=
  match f.mapVoteIndex.find nHash with
  | none => some (f, false, ss)
  | some it =>
    match derefIt f.listVotes it with
    | none => none
    | some vote => some (f, true, ss ++ ser vote)

/-- The method `GetVotes()`, a const method: the ledger is handed back as it was, with the
vector of the votes in list order. -/
def GetVotes (f : CGovernanceObjectVoteFile) :
    CGovernanceObjectVoteFile × List CGovernanceVote :=
  (f, f.listVotes.map ListNode.vote)

/-- The loop of `RemoveVotesFromMasternode`, from iterator position `it` on:
the nodes from `it` to the end, the counter and the index. -/
def RemoveVotesFromMasternode.loop (outpointMasternode : COutPoint) :
    List ListNode → Int → vote_m_t → List ListNode × Int × vote_m_t
  | [], n, m => ([], n, m)
  | nd :: rest, n, m =>
    if nd.vote.GetMasternodeOutpoint = outpointMasternode then
      loop outpointMasternode rest (n - 1) (m.erase nd.vote.GetHash)
    else
      let r := loop outpointMasternode rest n m
      (nd :: r.1, r.2.1, r.2.2)

/-- The method `RemoveVotesFromMasternode(outpointMasternode)`: the loop run
from `listVotes.begin()`. -/
def RemoveVotesFromMasternode (f : CGovernanceObjectVoteFile)
    (outpointMasternode : COutPoint) : CGovernanceObjectVoteFile :=
  let r := RemoveVotesFromMasternode.loop outpointMasternode
    f.listVotes f.nMemoryVotes f.mapVoteIndex
  { nMemoryVotes := r.2.1, listVotes := r.1, mapVoteIndex := r.2.2 }

/-- The loop of `RemoveInvalidProposalVotes`; `IsValid v b` is the external
check `v.IsValid(b)`, and `removedVotes` the `std::set` built so far. -/
def RemoveInvalidProposalVotes.loop (IsValid : CGovernanceVote → Bool → Bool)
    (outpointMasternode : COutPoint) :
    List ListNode → Int → vote_m_t → Finset uint256 →
      List ListNode × Int × vote_m_t × Finset uint256
  | [], n, m, removedVotes => ([], n, m, removedVotes)
  | nd :: rest, n, m, removedVotes =>
    if nd.vote.GetSignal = VOTE_SIGNAL_FUNDING ∧
        nd.vote.GetMasternodeOutpoint = outpointMasternode then
      if !(IsValid nd.vote true) then
        loop IsValid outpointMasternode rest (n - 1) (m.erase nd.vote.GetHash)
          (insert nd.vote.GetHash removedVotes)
      else
        let r := loop IsValid outpointMasternode rest n m removedVotes
        (nd :: r.1, r.2)
    else
      let r := loop IsValid outpointMasternode rest n m removedVotes
      (nd :: r.1, r.2)

/-- The method `RemoveInvalidProposalVotes(outpointMasternode)`: the ledger after the call
and the returned set of hashes. -/
def RemoveInvalidProposalVotes (IsValid : CGovernanceVote → Bool → Bool)
    (f : CGovernanceObjectVoteFile) (outpointMasternode : COutPoint) :
    CGovernanceObjectVoteFile × Finset uint256 :=
  let r := RemoveInvalidProposalVotes.loop IsValid outpointMasternode
    f.listVotes f.nMemoryVotes f.mapVoteIndex ∅
  ({ nMemoryVotes := r.2.1, listVotes := r.1, mapVoteIndex := r.2.2.1 }, r.2.2.2)

/-- The loop of `RemoveOldVotes`; `removed` is the vector built so far. The
timestamp is a signed 64-bit value and `nMinTime` an `unsigned int`, so the
comparison is the one of the integers. -/
def RemoveOldVotes.loop (nMinTime : Nat) :
    List ListNode → Int → vote_m_t → List uint256 →
      List ListNode × Int × vote_m_t × List uint256
  | [], n, m, removed => ([], n, m, removed)
  | nd :: rest, n, m, removed =>
    if nd.vote.GetTimestamp < (nMinTime : Int) then
      loop nMinTime rest (n - 1) (m.erase nd.vote.GetHash)
        (removed ++ [nd.vote.GetHash])
    else
      let r := loop nMinTime rest n m removed
      (nd :: r.1, r.2)

/-- The method `RemoveOldVotes(nMinTime)`: the ledger after the call and the returned
vector of hashes. -/
def RemoveOldVotes (f : CGovernanceObjectVoteFile) (nMinTime : Nat) :
    CGovernanceObjectVoteFile × List uint256 :=
  let r := RemoveOldVotes.loop nMinTime f.listVotes f.nMemoryVotes f.mapVoteIndex []
  ({ nMemoryVotes := r.2.1, listVotes := r.1, mapVoteIndex := r.2.2.1 }, r.2.2.2)

/-- The loop of `RebuildIndex`, from iterator position `it` on. -/
def RebuildIndex.loop : List ListNode → Int → vote_m_t → List ListNode × Int × vote_m_t
  | [], n, m => ([], n, m)
  | nd :: rest, n, m =>
    let nHash := nd.vote.GetHash
    if m.find nHash = none then
      let r := loop rest (n + 1) (m.assign nHash nd.addr)
      (nd :: r.1, r.2)
    else
      loop rest n m

/-- The method `RebuildIndex()`: clears the index and the counter, then runs the loop. -/
def RebuildIndex (f : CGovernanceObjectVoteFile) : CGovernanceObjectVoteFile :=
  let r := RebuildIndex.loop f.listVotes 0 []
  { nMemoryVotes := r.2.1, listVotes := r.1, mapVoteIndex := r.2.2 }

end CGovernanceObjectVoteFile

/-- A call of one of the mutators of the ledger, with its arguments. The
validity check consulted by `RemoveInvalidProposalVotes` is an argument too. -/
inductive LedgerCall where
  | addVote (vote : CGovernanceVote)
  | removeVotesFromMasternode (outpointMasternode : COutPoint)
  | removeInvalidProposalVotes (IsValid : CGovernanceVote → Bool → Bool)
      (outpointMasternode : COutPoint)
  | removeOldVotes (nMinTime : Nat)
  | rebuildIndex

/-- The ledger after one call. -/
def LedgerCall.run : LedgerCall → CGovernanceObjectVoteFile → CGovernanceObjectVoteFile
  | .addVote vote, f => f.AddVote vote
  | .removeVotesFromMasternode o, f => f.RemoveVotesFromMasternode o
  | .removeInvalidProposalVotes IsValid o, f => (f.RemoveInvalidProposalVotes IsValid o).1
  | .removeOldVotes nMinTime, f => (f.RemoveOldVotes nMinTime).1
  | .rebuildIndex, f => f.RebuildIndex

/-- The ledger after a finite sequence of calls, first call first. -/
def runCalls (calls : List LedgerCall) (f : CGovernanceObjectVoteFile) :
    CGovernanceObjectVoteFile :=
  calls.foldl (fun g c => c.run g) f

/-- The hashes of the votes in the sequence, in sequence order. -/
def listHashes (l : List ListNode) : List uint256 :=
  l.map (fun nd => nd.vote.GetHash)

/-- The ledger invariant: count, sequence length and index size agree; the
votes of the sequence have pairwise distinct hashes and live in distinct nodes;
the index has one entry per key, its keys are the hashes of the votes of the
sequence, and the iterator stored under a hash refers to the node holding the
vote with that hash. -/
def LedgerInv (f : CGovernanceObjectVoteFile) : Prop :=
  f.nMemoryVotes = (f.listVotes.length : Int) ∧
  f.mapVoteIndex.size = f.listVotes.length ∧
  (listHashes f.listVotes).Nodup ∧
  (f.listVotes.map ListNode.addr).Nodup ∧
  f.mapVoteIndex.keys.Nodup ∧
  (∀ h ∈ f.mapVoteIndex.keys, h ∈ listHashes f.listVotes) ∧
  (∀ h ∈ listHashes f.listVotes, h ∈ f.mapVoteIndex.keys) ∧
  (∀ e ∈ f.mapVoteIndex, ∃ nd ∈ f.listVotes, nd.addr = e.2 ∧ nd.vote.GetHash = e.1)

instance (f : CGovernanceObjectVoteFile) : Decidable (LedgerInv f) := by
  unfold LedgerInv; infer_instance

/-- The list `xs` without every element whose hash equals the hash of an
earlier element, or a hash in `seen`; written after the wording of the spec
("duplicate hashes are collapsed to a single surviving entry"). -/
def dropRepeatedHashes {α : Type} (hashOf : α → uint256) :
    List uint256 → List α → List α
  | _, [] => []
  | seen, x :: xs =>
    if hashOf x ∈ seen then dropRepeatedHashes hashOf seen xs
    else x :: dropRepeatedHashes hashOf (hashOf x :: seen) xs

/-- The removal criterion of `RemoveVotesFromMasternode`: the vote is signed by
the masternode with outpoint `o`. -/
def votedBy (o : COutPoint) (v : CGovernanceVote) : Bool :=
  decide (v.GetMasternodeOutpoint = o)

/-- The removal criterion of `RemoveInvalidProposalVotes`: a funding vote of
the masternode with outpoint `o` that fails the strict validity check. -/
def invalidFundingVoteOf (IsValid : CGovernanceVote → Bool → Bool) (o : COutPoint)
    (v : CGovernanceVote) : Bool :=
  decide (v.GetSignal = VOTE_SIGNAL_FUNDING ∧ v.GetMasternodeOutpoint = o) && !IsValid v true

/-- The removal criterion of `RemoveOldVotes`: the timestamp is strictly below
`nMinTime`. -/
def olderThan (nMinTime : Nat) (v : CGovernanceVote) : Bool :=
  decide (v.GetTimestamp < (nMinTime : Int))

/-- The ledger `f` with exactly the votes satisfying `p` deleted: they leave the
sequence, their hashes leave the index, and the count drops by their number. -/
def deleteVotes (p : CGovernanceVote → Bool) (f : CGovernanceObjectVoteFile) :
    CGovernanceObjectVoteFile :=
  { nMemoryVotes := f.nMemoryVotes - ((f.listVotes.filter (fun nd => p nd.vote)).length : Int)
    listVotes := f.listVotes.filter (fun nd => !p nd.vote)
    mapVoteIndex := f.mapVoteIndex.filter
      (fun e => decide (e.1 ∉ listHashes (f.listVotes.filter (fun nd => p nd.vote)))) }

/-- Adding the votes of `vs` one by one, first vote first. -/
def addVotes (vs : List CGovernanceVote) (f : CGovernanceObjectVoteFile) :
    CGovernanceObjectVoteFile :=
  vs.foldl CGovernanceObjectVoteFile.AddVote f

/-! ### Sample votes and ledgers, used to evaluate the model -/

/-- A funding vote of masternode (7, 0), cast at time 100, with hash 11. -/
def sampleVote1 : CGovernanceVote :=
  { nVoteSignal := 1, masternodeOutpoint := ⟨7, 0⟩, nParentHash := 500, nVoteOutcome := 1,
    nTime := 100, vchSig := [1, 2], hash := 11 }

/-- A funding vote of masternode (8, 1), cast at time 200, with hash 22. -/
def sampleVote2 : CGovernanceVote :=
  { nVoteSignal := 1, masternodeOutpoint := ⟨8, 1⟩, nParentHash := 500, nVoteOutcome := 2,
    nTime := 200, vchSig := [3], hash := 22 }

/-- A vote of masternode (7, 0) with another signal, cast at time 300, hash 33. -/
def sampleVote3 : CGovernanceVote :=
  { nVoteSignal := 2, masternodeOutpoint := ⟨7, 0⟩, nParentHash := 500, nVoteOutcome := 1,
    nTime := 300, vchSig := [4], hash := 33 }

/-- A vote with the hash of `sampleVote1` and another signature. -/
def sampleVote1b : CGovernanceVote :=
  { sampleVote1 with vchSig := [9, 9] }

/-- The ledger after adding `sampleVote1`, `sampleVote2` and `sampleVote3`. -/
def sampleLedger : CGovernanceObjectVoteFile :=
  addVotes [sampleVote1, sampleVote2, sampleVote3] CGovernanceObjectVoteFile.empty

/-- A validity check that rejects every vote. -/
def sampleRejectAll (_v : CGovernanceVote) (_fSignatureCheck : Bool) : Bool := false

/-- A toy serialization of a vote: its hash, then its timestamp. -/
def sampleSer (v : CGovernanceVote) : List Nat := [v.hash, v.nTime.toNat]

/-! ## Masternodes (`masternode.h`)

`GetAdjustedTime()` is an argument of the functions that read the clock. A
64-bit signed subtraction is the subtraction of the integers brought back into
the 64-bit range; where the exact difference does not fit, C++ leaves the
result undefined, and the theorems say which range they cover. `nPoSeBanScore`
is only stepped under a guard that keeps it away from the ends of `int`, so it
is an integer without a width. -/

def MASTERNODE_CHECK_SECONDS : Int := 5

def MASTERNODE_MIN_MNB_SECONDS : Int := 5 * 60

def MASTERNODE_MIN_MNP_SECONDS : Int := 10 * 60

def MASTERNODE_SENTINEL_PING_MAX_SECONDS : Int := 60 * 60

def MASTERNODE_EXPIRATION_SECONDS : Int := 120 * 60

def MASTERNODE_NEW_START_REQUIRED_SECONDS : Int := 180 * 60

def MASTERNODE_POSE_BAN_MAX_SCORE : Int := 5

def MASTERNODE_MAX_MIXING_TXES : Int := 5

def DEFAULT_SENTINEL_VERSION : Nat := 0x010001

def DEFAULT_DAEMON_VERSION : Nat := 120200

/-- The value of a 64-bit signed integer expression whose exact value is `x`
(two's complement). -/
def int64_wrap (x : Int) : Int := (x + 2 ^ 63) % 2 ^ 64 - 2 ^ 63

/-- Modelled from the spec: the default-constructed outpoint `COutPoint()`. The
class is declared in primitives/transaction.h, which is not among the sources;
its default value is the null outpoint, null hash and index `(uint32_t) -1`.
The ping only compares an outpoint with this one value. -/
def COutPoint.Null : COutPoint := { hash := 0, n := 4294967295 }

/-- Modelled from the spec: a network address (`CService`), declared in
netaddress.h, which is not among the sources: address bytes and port. -/
structure CService where
  ip : List Nat
  port : Nat
deriving DecidableEq, Repr

/-- The class `CMasternodePing`, with its default member initializers. -/
structure CMasternodePing where
  masternodeOutpoint : COutPoint := COutPoint.Null
  blockHash : uint256 := 0
  sigTime : Int := 0
  vchSig : List Nat := []
  fSentinelIsCurrent : Bool := false
  nSentinelVersion : Nat := DEFAULT_SENTINEL_VERSION
  nDaemonVersion : Nat := DEFAULT_DAEMON_VERSION
deriving DecidableEq, Repr

namespace CMasternodePing

/-- The constructor `CMasternodePing() = default`. -/
def default : CMasternodePing := {}

/-- The free function `operator==(a, b)` on pings. -/
def operator_eq (a b : CMasternodePing) : Bool :=
  decide (a.masternodeOutpoint = b.masternodeOutpoint) && decide (a.blockHash = b.blockHash)

/-- The free function `operator!=(a, b)` on pings: `!(a == b)`. -/
def operator_ne (a b : CMasternodePing) : Bool :=
  !operator_eq a b

/-- The conversion `explicit operator bool()`: `*this != CMasternodePing()`. -/
def operator_bool (p : CMasternodePing) : Bool :=
  operator_ne p CMasternodePing.default

/-- The method `IsExpired()`:
`GetAdjustedTime() - sigTime > MASTERNODE_NEW_START_REQUIRED_SECONDS`. -/
def IsExpired (GetAdjustedTime : Int) (p : CMasternodePing) : Bool :=
  decide (int64_wrap (GetAdjustedTime - p.sigTime) > MASTERNODE_NEW_START_REQUIRED_SECONDS)

end CMasternodePing

/-- The struct `masternode_info_t`, with its default member initializers. Keys
and key identifiers are byte strings. -/
structure masternode_info_t where
  nActiveState : Int := 0
  nProtocolVersion : Int := 0
  sigTime : Int := 0
  outpoint : COutPoint := COutPoint.Null
  addr : CService := { ip := [], port := 0 }
  pubKeyCollateralAddress : List Nat := []
  pubKeyMasternode : List Nat := []
  keyIDCollateralAddress : List Nat := []
  keyIDOwner : List Nat := []
  legacyKeyIDOperator : List Nat := []
  blsPubKeyOperator : List Nat := []
  keyIDVoting : List Nat := []
  nLastDsq : Int := 0
  nTimeLastChecked : Int := 0
  nTimeLastPaid : Int := 0
  nTimeLastPing : Int := 0
  fInfoValid : Bool := false
deriving DecidableEq, Repr

/-- The class `CMasternode`, without its lock, with its default member
initializers. -/
structure CMasternode extends masternode_info_t where
  lastPing : CMasternodePing := {}
  vchSig : List Nat := []
  nCollateralMinConfBlockHash : uint256 := 0
  nBlockLastPaid : Int := 0
  nPoSeBanScore : Int := 0
  nPoSeBanHeight : Int := 0
  nMixingTxCount : Int := 0
  fUnitTest : Bool := false
  mapGovernanceObjectsVotedOn : List (uint256 × Int) := []
deriving DecidableEq, Repr

namespace CMasternode

/-- The enumerators of `enum state`. -/
def MASTERNODE_PRE_ENABLED : Int := 0

def MASTERNODE_ENABLED : Int := 1

def MASTERNODE_EXPIRED : Int := 2

def MASTERNODE_OUTPOINT_SPENT : Int := 3

def MASTERNODE_UPDATE_REQUIRED : Int := 4

def MASTERNODE_SENTINEL_PING_EXPIRED : Int := 5

def MASTERNODE_NEW_START_REQUIRED : Int := 6

def MASTERNODE_POSE_BAN : Int := 7

/-- A masternode all of whose members have the value of their default member
initializer; in particular `nPoSeBanScore{}` is 0. -/
def init : CMasternode := {}

/-- The method `IsEnabled()`. -/
def IsEnabled (m : CMasternode) : Bool := decide (m.nActiveState = MASTERNODE_ENABLED)

/-- The method `IsPoSeBanned()`. -/
def IsPoSeBanned (m : CMasternode) : Bool := decide (m.nActiveState = MASTERNODE_POSE_BAN)

/-- The method `IsPoSeVerified()`; it reads `nPoSeBanScore`, not `nActiveState`. -/
def IsPoSeVerified (m : CMasternode) : Bool :=
  decide (m.nPoSeBanScore ≤ -MASTERNODE_POSE_BAN_MAX_SCORE)

/-- The method `IncreasePoSeBanScore()`. -/
def IncreasePoSeBanScore (m : CMasternode) : CMasternode :=
  if m.nPoSeBanScore < MASTERNODE_POSE_BAN_MAX_SCORE then
    { m with nPoSeBanScore := m.nPoSeBanScore + 1 }
  else m

/-- The method `DecreasePoSeBanScore()`. -/
def DecreasePoSeBanScore (m : CMasternode) : CMasternode :=
  if m.nPoSeBanScore > -MASTERNODE_POSE_BAN_MAX_SCORE then
    { m with nPoSeBanScore := m.nPoSeBanScore - 1 }
  else m

/-- The method `PoSeBan()`. -/
def PoSeBan (m : CMasternode) : CMasternode :=
  { m with nPoSeBanScore := MASTERNODE_POSE_BAN_MAX_SCORE }

end CMasternode

/-- A call of one of the three methods that write `nPoSeBanScore`. -/
inductive PoSeCall where
  | increase
  | decrease
  | ban
deriving DecidableEq, Repr

/-- The masternode after one such call. -/
def PoSeCall.run : PoSeCall → CMasternode → CMasternode
  | .increase, m => m.IncreasePoSeBanScore
  | .decrease, m => m.DecreasePoSeBanScore
  | .ban, m => m.PoSeBan

/-- The masternode after a finite sequence of such calls, first call first. -/
def runPoSeCalls (calls : List PoSeCall) (m : CMasternode) : CMasternode :=
  calls.foldl (fun g c => c.run g) m

/-- The masternode after `k` calls of `DecreasePoSeBanScore()`. -/
def decreaseTimes : Nat → CMasternode → CMasternode
  | 0, m => m
  | k + 1, m => decreaseTimes k m.DecreasePoSeBanScore

/-! ### `CMasternodeVerification`: serialization and hashes

A `CHashWriter` collects the bytes written to it with `<<` and `GetHash()`
hashes them. The serialization of the member types and the hash function are
declared outside masternode.h; they are the fields of a `Codec`. -/

/-- The `k` low bytes of `x`, least significant first. -/
def leBytes : Nat → Nat → List Nat
  | 0, _ => []
  | k + 1, x => x % 256 :: leBytes k (x / 256)

/-- Modelled from the spec: the bytes `<<` writes for a `uint8_t`, one byte;
serialize.h is not among the sources. The spec names the dummy values by their
bytes, `{uint8 zero, 0xffffffff}`. -/
def ser_uint8 (x : Nat) : List Nat := leBytes 1 x

/-- Modelled from the spec: the bytes `<<` writes for an `unsigned int` (the
type of the literal `0xffffffff`), four bytes; serialize.h is not among the
sources. -/
def ser_uint32 (x : Nat) : List Nat := leBytes 4 x

/-- The serialization of the types declared outside masternode.h, as `<<` and
`READWRITE` write them, and the hash a `CHashWriter` computes of its bytes. -/
structure Codec where
  serOutPoint : COutPoint → List Nat
  serService : CService → List Nat
  serInt : Int → List Nat
  serUint256 : uint256 → List Nat
  serVector : List Nat → List Nat
  Hash : List Nat → uint256

/-- The class `CMasternodeVerification`, with its default member initializers. -/
structure CMasternodeVerification where
  masternodeOutpoint1 : COutPoint := COutPoint.Null
  masternodeOutpoint2 : COutPoint := COutPoint.Null
  addr : CService := { ip := [], port := 0 }
  nonce : Int := 0
  nBlockHeight : Int := 0
  vchSig1 : List Nat := []
  vchSig2 : List Nat := []
deriving DecidableEq, Repr

namespace CMasternodeVerification

/-- The method `SerializationOp(s, ser_action)` when writing: the stream after
the seven `READWRITE` lines. -/
def SerializationOp (c : Codec) (v : CMasternodeVerification) (s : CDataStream) :
    CDataStream :=
  let s := s ++ c.serOutPoint v.masternodeOutpoint1
  let s := s ++ c.serOutPoint v.masternodeOutpoint2
  let s := s ++ c.serService v.addr
  let s := s ++ c.serInt v.nonce
  let s := s ++ c.serInt v.nBlockHeight
  let s := s ++ c.serVector v.vchSig1
  let s := s ++ c.serVector v.vchSig2
  s

/-- The bytes in the `CHashWriter ss` of `GetHash()` when `ss.GetHash()` is
called. -/
def GetHashStream (c : Codec) (v : CMasternodeVerification) : List Nat :=
  let ss : List Nat := []
  let ss := ((ss ++ c.serOutPoint v.masternodeOutpoint1) ++ ser_uint8 0) ++ ser_uint32 0xffffffff
  let ss := ((ss ++ c.serOutPoint v.masternodeOutpoint2) ++ ser_uint8 0) ++ ser_uint32 0xffffffff
  let ss := ss ++ c.serService v.addr
  let ss := ss ++ c.serInt v.nonce
  let ss := ss ++ c.serInt v.nBlockHeight
  ss

/-- The method `GetHash()`. -/
def GetHash (c : Codec) (v : CMasternodeVerification) : uint256 :=
  c.Hash (GetHashStream c v)

/-- The bytes in the `CHashWriter ss` of `GetSignatureHash1(blockHash)` when
`ss.GetHash()` is called. -/
def GetSignatureHash1Stream (c : Codec) (v : CMasternodeVerification) (blockHash : uint256) :
    List Nat :=
  let ss : List Nat := []
  let ss := ss ++ c.serService v.addr
  let ss := ss ++ c.serInt v.nonce
  let ss := ss ++ c.serUint256 blockHash
  ss

/-- The method `GetSignatureHash1(blockHash)`. -/
def GetSignatureHash1 (c : Codec) (v : CMasternodeVerification) (blockHash : uint256) :
    uint256 :=
  c.Hash (GetSignatureHash1Stream c v blockHash)

/-- The bytes in the `CHashWriter ss` of `GetSignatureHash2(blockHash)` when
`ss.GetHash()` is called. -/
def GetSignatureHash2Stream (c : Codec) (v : CMasternodeVerification) (blockHash : uint256) :
    List Nat :=
  let ss : List Nat := []
  let ss := ss ++ c.serOutPoint v.masternodeOutpoint1
  let ss := ss ++ c.serOutPoint v.masternodeOutpoint2
  let ss := ss ++ c.serService v.addr
  let ss := ss ++ c.serInt v.nonce
  let ss := ss ++ c.serUint256 blockHash
  ss

/-- The method `GetSignatureHash2(blockHash)`. -/
def GetSignatureHash2 (c : Codec) (v : CMasternodeVerification) (blockHash : uint256) :
    uint256 :=
  c.Hash (GetSignatureHash2Stream c v blockHash)

end CMasternodeVerification

/-- A codec to evaluate the model with: integers as bytes, least significant
first; an outpoint as 32 bytes of hash and 4 bytes of index; an address as its
bytes and two bytes of port; a byte vector after its length; and a toy hash. -/
def sampleCodec : Codec :=
  { serOutPoint := fun o => leBytes 32 o.hash ++ leBytes 4 o.n
    serService := fun a => a.ip ++ [a.port / 256 % 256, a.port % 256]
    serInt := fun x => leBytes 4 (x % 2 ^ 32).toNat
    serUint256 := fun h => leBytes 32 h
    serVector := fun b => b.length :: b
    Hash := fun bytes => bytes.foldl (fun acc b => (acc * 257 + b + 1) % 2 ^ 256) 0 }

/-- A verification record between masternodes (7, 0) and (8, 1). -/
def sampleVerification : CMasternodeVerification :=
  { masternodeOutpoint1 := ⟨7, 0⟩, masternodeOutpoint2 := ⟨8, 1⟩,
    addr := { ip := [10, 0, 0, 1], port := 24126 }, nonce := 12345, nBlockHeight := 1000,
    vchSig1 := [1, 2], vchSig2 := [3] }

/-! ### The copy constructor of the ledger -/

/-- The nodes `std::list`'s copy constructor allocates: one new node per node of
the source, in order, holding a copy of its vote. The new nodes live at pairwise
distinct addresses, numbered from `next` on. -/
def copyNodesFrom : Nat → List ListNode → List ListNode
  | _, [] => []
  | next, nd :: rest => { addr := next, vote := nd.vote } :: copyNodesFrom (next + 1) rest

/-- The copy constructor `CGovernanceObjectVoteFile(other)`: the count and the
list are copied, the index starts empty, then `RebuildIndex()` runs. -/
def CGovernanceObjectVoteFile.copy (other : CGovernanceObjectVoteFile) :
    CGovernanceObjectVoteFile :=
  CGovernanceObjectVoteFile.RebuildIndex
    { nMemoryVotes := other.nMemoryVotes
      listVotes := copyNodesFrom 1 other.listVotes
      mapVoteIndex := [] }

/-! ### Recency tests and `Check()` -/

/-- The method `IsBroadcastedWithin(nSeconds)`:
`GetAdjustedTime() - sigTime < nSeconds`. -/
def CMasternode.IsBroadcastedWithin (GetAdjustedTime : Int) (m : CMasternode)
    (nSeconds : Int) : Bool :=
  decide (int64_wrap (GetAdjustedTime - m.sigTime) < nSeconds)

/-- The method `IsPingedWithin(nSeconds, nTimeToCheckAt)`; the caller passes -1
for `nTimeToCheckAt` when it leaves the argument out. -/
def CMasternode.IsPingedWithin (GetAdjustedTime : Int) (m : CMasternode)
    (nSeconds : Int) (nTimeToCheckAt : Int) : Bool :=
  if !m.lastPing.operator_bool then false
  else
    let nTimeToCheckAt := if nTimeToCheckAt = -1 then GetAdjustedTime else nTimeToCheckAt
    decide (int64_wrap (nTimeToCheckAt - m.lastPing.sigTime) < nSeconds)

/-- What `Check()` reads from outside the masternode: the current adjusted time,
whether the collateral outpoint still refers to a valid unspent output of the
required amount, and the required minimum protocol version. -/
structure CheckEnv where
  GetAdjustedTime : Int
  fCollateralValid : Bool
  nMinProtocolVersion : Int

/-- Modelled from the spec: `CMasternode::Check`, which masternode.h declares
and masternode.cpp, not among the sources, defines. The state is recomputed by
the priority cascade of the spec, first matching rule first: collateral not a
valid unspent output, or state already OUTPOINT_SPENT (sticky), gives
OUTPOINT_SPENT; PoSe ban score at the ban threshold gives POSE_BAN; broadcast
age over the new-start-required threshold gives NEW_START_REQUIRED; no ping
ever seen and broadcast age over the min-ping threshold gives
NEW_START_REQUIRED; ping older than the expiration threshold gives EXPIRED;
sentinel flag not current with a ping older than the sentinel-max threshold
gives SENTINEL_PING_EXPIRED; protocol version below the required minimum gives
UPDATE_REQUIRED; broadcast age below the min-broadcast threshold gives
PRE_ENABLED; otherwise ENABLED. Ages are the current adjusted time minus the
signing time, in 64-bit arithmetic. -/
def CMasternode.Check (env : CheckEnv) (m : CMasternode) : CMasternode :=
  let nBroadcastAge := int64_wrap (env.GetAdjustedTime - m.sigTime)
  let nPingAge := int64_wrap (env.GetAdjustedTime - m.lastPing.sigTime)
  if m.nActiveState = CMasternode.MASTERNODE_OUTPOINT_SPENT ∨ env.fCollateralValid = false then
    { m with nActiveState := CMasternode.MASTERNODE_OUTPOINT_SPENT }
  else if m.nPoSeBanScore ≥ MASTERNODE_POSE_BAN_MAX_SCORE then
    { m with nActiveState := CMasternode.MASTERNODE_POSE_BAN }
  else if nBroadcastAge > MASTERNODE_NEW_START_REQUIRED_SECONDS then
    { m with nActiveState := CMasternode.MASTERNODE_NEW_START_REQUIRED }
  else if m.lastPing.operator_bool = false ∧ nBroadcastAge > MASTERNODE_MIN_MNP_SECONDS then
    { m with nActiveState := CMasternode.MASTERNODE_NEW_START_REQUIRED }
  else if nPingAge > MASTERNODE_EXPIRATION_SECONDS then
    { m with nActiveState := CMasternode.MASTERNODE_EXPIRED }
  else if m.lastPing.fSentinelIsCurrent = false ∧
      nPingAge > MASTERNODE_SENTINEL_PING_MAX_SECONDS then
    { m with nActiveState := CMasternode.MASTERNODE_SENTINEL_PING_EXPIRED }
  else if m.nProtocolVersion < env.nMinProtocolVersion then
    { m with nActiveState := CMasternode.MASTERNODE_UPDATE_REQUIRED }
  else if nBroadcastAge < MASTERNODE_MIN_MNB_SECONDS then
    { m with nActiveState := CMasternode.MASTERNODE_PRE_ENABLED }
  else
    { m with nActiveState := CMasternode.MASTERNODE_ENABLED }

/-- A masternode announced at time 1000, with a ping signed at time 12900. -/
def sampleMasternode : CMasternode :=
  { CMasternode.init with
    nActiveState := CMasternode.MASTERNODE_ENABLED, sigTime := 1000, outpoint := ⟨7, 0⟩,
    lastPing := { masternodeOutpoint := ⟨7, 0⟩, blockHash := 77, sigTime := 12900 } }

/-- An environment at time 13000 (200 minutes after time 1000), with valid
collateral. -/
def sampleCheckEnv : CheckEnv :=
  { GetAdjustedTime := 13000, fCollateralValid := true, nMinProtocolVersion := 0 }

/-- A ping of masternode (7, 0) whose signing time is the least 64-bit signed
value, as it can arrive in a message. -/
def sampleEarliestPing : CMasternodePing :=
  { masternodeOutpoint := ⟨7, 0⟩, blockHash := 77, sigTime := -9223372036854775808 }

/-- The sample masternode with `sampleEarliestPing` as its last ping. -/
def sampleEarliestPingMasternode : CMasternode :=
  { sampleMasternode with lastPing := sampleEarliestPing }

/-! ## The index as a map -/

namespace vote_m_t

theorem find_eq_none_iff (m : vote_m_t) (k : uint256) :
    m.find k = none ↔ k ∉ m.keys := by
  induction m with
  | nil => simp [find, keys]
  | cons e rest ih =>
    by_cases h : e.1 = k
    · simp [find, keys, h]
    · have ih2 : find rest k = none ↔ k ∉ List.map Prod.fst rest := ih
      simp [find, keys, h, ih2, Ne.symm h]

theorem find_isSome_iff (m : vote_m_t) (k : uint256) :
    (m.find k).isSome = true ↔ k ∈ m.keys := by
  rw [← not_iff_not, ← find_eq_none_iff]
  cases m.find k <;> simp

theorem find_mem (m : vote_m_t) (k : uint256) (it : Nat) (h : m.find k = some it) :
    (k, it) ∈ m := by
  induction m with
  | nil => simp [find] at h
  | cons e rest ih =>
    by_cases hk : e.1 = k
    · simp [find, hk] at h
      have : e = (k, it) := Prod.ext hk h
      simp [this]
    · simp [find, hk] at h
      exact List.mem_cons_of_mem _ (ih h)

theorem mem_erase (m : vote_m_t) (k : uint256) (e : uint256 × Nat) :
    e ∈ m.erase k ↔ e ∈ m ∧ e.1 ≠ k := by
  simp [erase, List.mem_filter]

theorem erase_eq_self (m : vote_m_t) (k : uint256) (h : k ∉ m.keys) : m.erase k = m := by
  unfold erase
  rw [List.filter_eq_self]
  intro e he
  have : e.1 ∈ m.keys := List.mem_map_of_mem _ he
  simp only [decide_eq_true_eq]
  intro hk
  exact h (hk ▸ this)

theorem assign_of_absent (m : vote_m_t) (k : uint256) (it : Nat) (h : m.find k = none) :
    m.assign k it = m ++ [(k, it)] := by
  induction m with
  | nil => rfl
  | cons e rest ih =>
    by_cases hk : e.1 = k
    · simp [find, hk] at h
    · simp [find, hk] at h
      simp [assign, hk, ih h]

end vote_m_t

/-! ## The removal loops delete exactly the matching votes -/

namespace CGovernanceObjectVoteFile

theorem filter_erase_absent (m : vote_m_t) (k : uint256) (hs : List uint256) :
    (m.erase k).filter (fun e => decide (e.1 ∉ hs)) =
      m.filter (fun e => decide (e.1 ∉ k :: hs)) := by
  unfold vote_m_t.erase
  rw [List.filter_filter]
  apply List.filter_congr
  intro e _
  by_cases h1 : e.1 = k <;> by_cases h2 : e.1 ∈ hs <;> simp [h1, h2]

theorem RemoveVotesFromMasternode_loop_eq (o : COutPoint) (l : List ListNode) (n : Int)
    (m : vote_m_t) :
    RemoveVotesFromMasternode.loop o l n m =
      (l.filter (fun nd => !votedBy o nd.vote),
       n - ((l.filter (fun nd => votedBy o nd.vote)).length : Int),
       m.filter (fun e => decide (e.1 ∉
          listHashes (l.filter (fun nd => votedBy o nd.vote))))) := by
  induction l generalizing n m with
  | nil => simp [RemoveVotesFromMasternode.loop, listHashes]
  | cons nd rest ih =>
    by_cases h : nd.vote.GetMasternodeOutpoint = o
    · have hp : votedBy o nd.vote = true := by simp [votedBy, h]
      simp only [RemoveVotesFromMasternode.loop, h, if_true, ih, filter_erase_absent]
      simp [List.filter_cons, hp, listHashes]
      omega
    · have hp : votedBy o nd.vote = false := by simp [votedBy, h]
      simp [RemoveVotesFromMasternode.loop, h, ih, List.filter_cons, hp]

theorem RemoveInvalidProposalVotes_loop_eq (IsValid : CGovernanceVote → Bool → Bool)
    (o : COutPoint) (l : List ListNode) (n : Int) (m : vote_m_t) (s : Finset uint256) :
    RemoveInvalidProposalVotes.loop IsValid o l n m s =
      (l.filter (fun nd => !invalidFundingVoteOf IsValid o nd.vote),
       n - ((l.filter (fun nd => invalidFundingVoteOf IsValid o nd.vote)).length : Int),
       m.filter (fun e => decide (e.1 ∉
          listHashes (l.filter (fun nd => invalidFundingVoteOf IsValid o nd.vote)))),
       s ∪ (listHashes (l.filter
          (fun nd => invalidFundingVoteOf IsValid o nd.vote))).toFinset) := by
  induction l generalizing n m s with
  | nil => simp [RemoveInvalidProposalVotes.loop, listHashes]
  | cons nd rest ih =>
    by_cases h : nd.vote.GetSignal = VOTE_SIGNAL_FUNDING ∧ nd.vote.GetMasternodeOutpoint = o
    · by_cases hv : IsValid nd.vote true = true
      · have hp : invalidFundingVoteOf IsValid o nd.vote = false := by
          simp [invalidFundingVoteOf, hv]
        simp [RemoveInvalidProposalVotes.loop, h, hv, ih, List.filter_cons, hp]
      · have hv2 : IsValid nd.vote true = false := by simpa using hv
        have hp : invalidFundingVoteOf IsValid o nd.vote = true := by
          simp [invalidFundingVoteOf, hv2, h]
        simp only [RemoveInvalidProposalVotes.loop, h, hv2, ih, filter_erase_absent]
        simp [List.filter_cons, hp, listHashes]
        omega
    · have hp : invalidFundingVoteOf IsValid o nd.vote = false := by
        simp only [invalidFundingVoteOf, h, decide_False, Bool.false_and]
      simp [RemoveInvalidProposalVotes.loop, h, ih, List.filter_cons, hp]

theorem RemoveOldVotes_loop_eq (t : Nat) (l : List ListNode) (n : Int) (m : vote_m_t)
    (acc : List uint256) :
    RemoveOldVotes.loop t l n m acc =
      (l.filter (fun nd => !olderThan t nd.vote),
       n - ((l.filter (fun nd => olderThan t nd.vote)).length : Int),
       m.filter (fun e => decide (e.1 ∉
          listHashes (l.filter (fun nd => olderThan t nd.vote)))),
       acc ++ listHashes (l.filter (fun nd => olderThan t nd.vote))) := by
  induction l generalizing n m acc with
  | nil => simp [RemoveOldVotes.loop, listHashes]
  | cons nd rest ih =>
    by_cases h : nd.vote.GetTimestamp < (t : Int)
    · have hp : olderThan t nd.vote = true := by simp [olderThan, h]
      simp only [RemoveOldVotes.loop, h, if_true, ih, filter_erase_absent]
      simp [List.filter_cons, hp, listHashes]
      omega
    · have hp : olderThan t nd.vote = false := by simp [olderThan, h]
      simp [RemoveOldVotes.loop, h, ih, List.filter_cons, hp]

theorem RemoveVotesFromMasternode_eq (f : CGovernanceObjectVoteFile) (o : COutPoint) :
    f.RemoveVotesFromMasternode o = deleteVotes (votedBy o) f := by
  simp [RemoveVotesFromMasternode, RemoveVotesFromMasternode_loop_eq, deleteVotes]

theorem RemoveInvalidProposalVotes_eq (IsValid : CGovernanceVote → Bool → Bool)
    (f : CGovernanceObjectVoteFile) (o : COutPoint) :
    f.RemoveInvalidProposalVotes IsValid o =
      (deleteVotes (invalidFundingVoteOf IsValid o) f,
       (listHashes (f.listVotes.filter
          (fun nd => invalidFundingVoteOf IsValid o nd.vote))).toFinset) := by
  simp [RemoveInvalidProposalVotes, RemoveInvalidProposalVotes_loop_eq, deleteVotes]

theorem RemoveOldVotes_eq (f : CGovernanceObjectVoteFile) (t : Nat) :
    f.RemoveOldVotes t =
      (deleteVotes (olderThan t) f,
       listHashes (f.listVotes.filter (fun nd => olderThan t nd.vote))) := by
  simp [RemoveOldVotes, RemoveOldVotes_loop_eq, deleteVotes]

end CGovernanceObjectVoteFile

/-! ## Dropping repeated hashes -/

theorem dropRepeatedHashes_congr {α : Type} (hashOf : α → uint256) (xs : List α) :
    ∀ (s t : List uint256), (∀ h, h ∈ s ↔ h ∈ t) →
      dropRepeatedHashes hashOf s xs = dropRepeatedHashes hashOf t xs := by
  induction xs with
  | nil => intro s t _; rfl
  | cons x xs ih =>
    intro s t hst
    by_cases hx : hashOf x ∈ s
    · have hx2 : hashOf x ∈ t := (hst _).1 hx
      simp only [dropRepeatedHashes, hx, hx2, if_true]
      exact ih s t hst
    · have hx2 : hashOf x ∉ t := fun h => hx ((hst _).2 h)
      simp only [dropRepeatedHashes, hx, hx2, if_false]
      rw [ih (hashOf x :: s) (hashOf x :: t)]
      intro h
      simp [hst h]

theorem mem_dropRepeatedHashes_hash {α : Type} (hashOf : α → uint256) (xs : List α) :
    ∀ (s : List uint256) (h : uint256),
      h ∈ (dropRepeatedHashes hashOf s xs).map hashOf ↔ h ∈ xs.map hashOf ∧ h ∉ s := by
  induction xs with
  | nil => intro s h; simp [dropRepeatedHashes]
  | cons x xs ih =>
    intro s h
    by_cases hx : hashOf x ∈ s
    · simp only [dropRepeatedHashes, hx, if_true, ih, List.map_cons, List.mem_cons]
      constructor
      · rintro ⟨h1, h2⟩; exact ⟨Or.inr h1, h2⟩
      · rintro ⟨h1 | h1, h2⟩
        · exact absurd (h1 ▸ hx) h2
        · exact ⟨h1, h2⟩
    · simp only [dropRepeatedHashes, hx, if_false, List.map_cons, List.mem_cons, ih, not_or]
      constructor
      · rintro (h1 | ⟨h1, h2, h3⟩)
        · exact ⟨Or.inl h1, h1 ▸ hx⟩
        · exact ⟨Or.inr h1, h3⟩
      · rintro ⟨h1 | h1, h2⟩
        · exact Or.inl h1
        · by_cases h3 : h = hashOf x
          · exact Or.inl h3
          · exact Or.inr ⟨h1, h3, h2⟩

theorem dropRepeatedHashes_nodup {α : Type} (hashOf : α → uint256) (xs : List α) :
    ∀ (s : List uint256), ((dropRepeatedHashes hashOf s xs).map hashOf).Nodup := by
  induction xs with
  | nil => intro s; simp [dropRepeatedHashes]
  | cons x xs ih =>
    intro s
    by_cases hx : hashOf x ∈ s
    · simp only [dropRepeatedHashes, hx, if_true]; exact ih s
    · simp only [dropRepeatedHashes, hx, if_false, List.map_cons, List.nodup_cons]
      refine ⟨?_, ih _⟩
      rw [mem_dropRepeatedHashes_hash]
      simp

theorem dropRepeatedHashes_sublist {α : Type} (hashOf : α → uint256) (xs : List α) :
    ∀ (s : List uint256), (dropRepeatedHashes hashOf s xs).Sublist xs := by
  induction xs with
  | nil => intro s; simp [dropRepeatedHashes]
  | cons x xs ih =>
    intro s
    by_cases hx : hashOf x ∈ s
    · simp only [dropRepeatedHashes, hx, if_true]; exact (ih s).cons x
    · simp only [dropRepeatedHashes, hx, if_false]; exact (ih _).cons₂ x

theorem dropRepeatedHashes_eq_self {α : Type} (hashOf : α → uint256) (xs : List α) :
    ∀ (s : List uint256), (xs.map hashOf).Nodup → (∀ h ∈ xs.map hashOf, h ∉ s) →
      dropRepeatedHashes hashOf s xs = xs := by
  induction xs with
  | nil => intro s _ _; rfl
  | cons x xs ih =>
    intro s hnd hdis
    have hx : hashOf x ∉ s := hdis _ (by simp)
    simp only [List.map_cons, List.nodup_cons] at hnd
    simp only [dropRepeatedHashes, hx, if_false]
    rw [ih _ hnd.2]
    intro h hh
    simp only [List.mem_cons, not_or]
    refine ⟨fun e => hnd.1 (e ▸ hh), hdis h (by simp [List.mem_map] at hh ⊢; exact Or.inr hh)⟩

theorem dropRepeatedHashes_map {α β : Type} (g : α → β) (hashOf : β → uint256) (xs : List α) :
    ∀ (s : List uint256), (dropRepeatedHashes (fun a => hashOf (g a)) s xs).map g =
      dropRepeatedHashes hashOf s (xs.map g) := by
  induction xs with
  | nil => intro s; rfl
  | cons x xs ih =>
    intro s
    by_cases hx : hashOf (g x) ∈ s
    · simp [dropRepeatedHashes, hx, ih]
    · simp [dropRepeatedHashes, hx, ih]

/-! ## `RebuildIndex` -/

namespace CGovernanceObjectVoteFile

theorem RebuildIndex_loop_eq (l : List ListNode) : ∀ (n : Int) (m : vote_m_t),
    RebuildIndex.loop l n m =
      (dropRepeatedHashes (fun nd => nd.vote.GetHash) m.keys l,
       n + ((dropRepeatedHashes (fun nd => nd.vote.GetHash) m.keys l).length : Int),
       m ++ (dropRepeatedHashes (fun nd => nd.vote.GetHash) m.keys l).map
          (fun nd => (nd.vote.GetHash, nd.addr))) := by
  induction l with
  | nil => intro n m; simp [RebuildIndex.loop, dropRepeatedHashes]
  | cons nd rest ih =>
    intro n m
    by_cases hf : m.find nd.vote.GetHash = none
    · have hk : nd.vote.GetHash ∉ m.keys := (vote_m_t.find_eq_none_iff _ _).1 hf
      have hc : dropRepeatedHashes (fun nd => nd.vote.GetHash)
          (vote_m_t.keys (m ++ [(nd.vote.GetHash, nd.addr)])) rest =
          dropRepeatedHashes (fun nd => nd.vote.GetHash) (nd.vote.GetHash :: m.keys) rest := by
        apply dropRepeatedHashes_congr
        intro h
        simp [vote_m_t.keys, or_comm]
      simp only [RebuildIndex.loop, hf, if_true, vote_m_t.assign_of_absent _ _ _ hf, ih, hc,
        dropRepeatedHashes, hk, if_false]
      simp
      omega
    · have hk : nd.vote.GetHash ∈ m.keys := by
        by_contra hk
        exact hf ((vote_m_t.find_eq_none_iff _ _).2 hk)
      simp only [RebuildIndex.loop, hf, if_false, ih, dropRepeatedHashes, hk, if_true]

theorem RebuildIndex_eq (f : CGovernanceObjectVoteFile) :
    f.RebuildIndex =
      { nMemoryVotes := ((dropRepeatedHashes (fun nd => nd.vote.GetHash) [] f.listVotes).length : Int)
        listVotes := dropRepeatedHashes (fun nd => nd.vote.GetHash) [] f.listVotes
        mapVoteIndex := (dropRepeatedHashes (fun nd => nd.vote.GetHash) [] f.listVotes).map
          (fun nd => (nd.vote.GetHash, nd.addr)) } := by
  simp [RebuildIndex, RebuildIndex_loop_eq, vote_m_t.keys]

end CGovernanceObjectVoteFile

/-! ## The ledger invariant is kept by every mutator -/

theorem size_eq_of_same_keys (m : vote_m_t) (l : List ListNode)
    (hk : m.keys.Nodup) (hl : (listHashes l).Nodup)
    (h1 : ∀ h ∈ m.keys, h ∈ listHashes l) (h2 : ∀ h ∈ listHashes l, h ∈ m.keys) :
    m.size = l.length := by
  have hp : m.keys.Perm (listHashes l) :=
    (List.perm_ext_iff_of_nodup hk hl).2 (fun h => ⟨h1 h, h2 h⟩)
  have := hp.length_eq
  simpa [vote_m_t.keys, listHashes, vote_m_t.size] using this

theorem addr_lt_newNodeAddr (l : List ListNode) : ∀ nd ∈ l, nd.addr < newNodeAddr l := by
  induction l with
  | nil => intro nd h; simp at h
  | cons x xs ih =>
    intro nd h
    simp only [newNodeAddr, List.map_cons, List.foldr_cons] at ih ⊢
    rcases List.mem_cons.1 h with h | h
    · subst h; omega
    · have := ih nd h; omega

theorem newNodeAddr_fresh (l : List ListNode) : newNodeAddr l ∉ l.map ListNode.addr := by
  intro h
  obtain ⟨nd, hnd, he⟩ := List.mem_map.1 h
  have := addr_lt_newNodeAddr l nd hnd
  omega

theorem same_node_of_same_hash (l : List ListNode) (hl : (listHashes l).Nodup)
    (a b : ListNode) (ha : a ∈ l) (hb : b ∈ l) (h : a.vote.GetHash = b.vote.GetHash) :
    a = b :=
  List.inj_on_of_nodup_map hl ha hb h

namespace CGovernanceObjectVoteFile

theorem HasVote_iff (f : CGovernanceObjectVoteFile) (h : uint256) :
    f.HasVote h = true ↔ h ∈ f.mapVoteIndex.keys :=
  vote_m_t.find_isSome_iff _ _

theorem HasVote_eq_false_iff (f : CGovernanceObjectVoteFile) (h : uint256) :
    f.HasVote h = false ↔ h ∉ f.mapVoteIndex.keys := by
  rw [← HasVote_iff]; simp

theorem AddVote_of_present (f : CGovernanceObjectVoteFile) (v : CGovernanceVote)
    (h : f.HasVote v.GetHash = true) : f.AddVote v = f := by
  simp [AddVote, h]

theorem AddVote_of_absent (f : CGovernanceObjectVoteFile) (v : CGovernanceVote)
    (h : f.HasVote v.GetHash = false) :
    f.AddVote v =
      { nMemoryVotes := f.nMemoryVotes + 1
        listVotes := { addr := newNodeAddr f.listVotes, vote := v } :: f.listVotes
        mapVoteIndex := (v.GetHash, newNodeAddr f.listVotes) :: f.mapVoteIndex } := by
  have hf : f.mapVoteIndex.find v.GetHash = none := by
    rw [vote_m_t.find_eq_none_iff]; exact (HasVote_eq_false_iff _ _).1 h
  simp [AddVote, h, vote_m_t.emplace, hf]

end CGovernanceObjectVoteFile

theorem ledgerInv_empty : LedgerInv CGovernanceObjectVoteFile.empty := by decide

theorem ledgerInv_AddVote (f : CGovernanceObjectVoteFile) (v : CGovernanceVote)
    (hf : LedgerInv f) : LedgerInv (f.AddVote v) := by
  cases hv : f.HasVote v.GetHash with
  | true => rw [CGovernanceObjectVoteFile.AddVote_of_present f v hv]; exact hf
  | false =>
    rw [CGovernanceObjectVoteFile.AddVote_of_absent f v hv]
    obtain ⟨h1, h2, h3, h4, h5, h6, h7, h8⟩ := hf
    have hk : v.GetHash ∉ f.mapVoteIndex.keys :=
      (CGovernanceObjectVoteFile.HasVote_eq_false_iff _ _).1 hv
    have hh : v.GetHash ∉ listHashes f.listVotes := fun h => hk (h7 _ h)
    refine ⟨?_, ?_, ?_, ?_, ?_, ?_, ?_, ?_⟩
    · simp [h1]
    · simp only [vote_m_t.size, List.length_cons] at h2 ⊢; omega
    · simpa [listHashes] using ⟨by simpa [listHashes] using hh, h3⟩
    · simpa using ⟨by simpa using newNodeAddr_fresh f.listVotes, h4⟩
    · simpa [vote_m_t.keys] using ⟨by simpa [vote_m_t.keys] using hk, h5⟩
    · intro h hm
      simp only [vote_m_t.keys, List.map_cons, List.mem_cons] at hm
      simp only [listHashes, List.map_cons, List.mem_cons]
      rcases hm with hm | hm
      · exact Or.inl hm
      · exact Or.inr (h6 h hm)
    · intro h hm
      simp only [listHashes, List.map_cons, List.mem_cons] at hm
      simp only [vote_m_t.keys, List.map_cons, List.mem_cons]
      rcases hm with hm | hm
      · exact Or.inl hm
      · exact Or.inr (h7 h hm)
    · intro e he
      rcases List.mem_cons.1 he with he | he
      · subst he
        exact ⟨_, List.mem_cons_self _ _, rfl, rfl⟩
      · obtain ⟨nd, hnd, ha, hb⟩ := h8 e he
        exact ⟨nd, List.mem_cons_of_mem _ hnd, ha, hb⟩

theorem ledgerInv_deleteVotes (p : CGovernanceVote → Bool) (f : CGovernanceObjectVoteFile)
    (hf : LedgerInv f) : LedgerInv (deleteVotes p f) := by
  obtain ⟨h1, h2, h3, h4, h5, h6, h7, h8⟩ := hf
  have g3 : (listHashes (f.listVotes.filter (fun nd => !p nd.vote))).Nodup :=
    List.Nodup.sublist ((List.filter_sublist _).map _) h3
  have g5 : (vote_m_t.keys (f.mapVoteIndex.filter (fun e => decide (e.1 ∉
      listHashes (f.listVotes.filter (fun nd => p nd.vote)))))).Nodup :=
    List.Nodup.sublist ((List.filter_sublist _).map _) h5
  have g6 : ∀ h ∈ vote_m_t.keys (f.mapVoteIndex.filter (fun e => decide (e.1 ∉
      listHashes (f.listVotes.filter (fun nd => p nd.vote))))),
      h ∈ listHashes (f.listVotes.filter (fun nd => !p nd.vote)) := by
    intro h hm
    obtain ⟨e, he, rfl⟩ := List.mem_map.1 hm
    simp only [List.mem_filter, decide_eq_true_eq] at he
    obtain ⟨nd, hnd, hh⟩ := List.mem_map.1 (h6 e.1 (List.mem_map_of_mem _ he.1))
    refine List.mem_map.2 ⟨nd, ?_, hh⟩
    simp only [List.mem_filter, Bool.not_eq_true']
    refine ⟨hnd, ?_⟩
    cases hp : p nd.vote with
    | false => rfl
    | true =>
      exact absurd (List.mem_map.2 ⟨nd, List.mem_filter.2 ⟨hnd, hp⟩, hh⟩) he.2
  have g7 : ∀ h ∈ listHashes (f.listVotes.filter (fun nd => !p nd.vote)),
      h ∈ vote_m_t.keys (f.mapVoteIndex.filter (fun e => decide (e.1 ∉
        listHashes (f.listVotes.filter (fun nd => p nd.vote))))) := by
    intro h hm
    obtain ⟨nd, hnd, rfl⟩ := List.mem_map.1 hm
    simp only [List.mem_filter, Bool.not_eq_true'] at hnd
    obtain ⟨e, he, hh⟩ := List.mem_map.1 (h7 _ (List.mem_map_of_mem _ hnd.1))
    refine List.mem_map.2 ⟨e, ?_, hh⟩
    simp only [List.mem_filter, decide_eq_true_eq]
    refine ⟨he, ?_⟩
    intro hc
    obtain ⟨nd2, hnd2, hh2⟩ := List.mem_map.1 hc
    simp only [List.mem_filter] at hnd2
    have : nd2 = nd := same_node_of_same_hash _ h3 _ _ hnd2.1 hnd.1 (hh2.trans hh)
    rw [this] at hnd2
    rw [hnd.2] at hnd2
    exact Bool.noConfusion hnd2.2
  refine ⟨?_, size_eq_of_same_keys _ _ g5 g3 g6 g7, g3,
    List.Nodup.sublist ((List.filter_sublist _).map _) h4, g5, g6, g7, ?_⟩
  · have := List.length_eq_length_filter_add (l := f.listVotes) (fun nd => p nd.vote)
    simp only [deleteVotes, h1]
    omega
  · intro e he
    simp only [deleteVotes, List.mem_filter, decide_eq_true_eq] at he
    obtain ⟨nd, hnd, ha, hb⟩ := h8 e he.1
    refine ⟨nd, ?_, ha, hb⟩
    simp only [deleteVotes, List.mem_filter, Bool.not_eq_true']
    refine ⟨hnd, ?_⟩
    cases hp : p nd.vote with
    | false => rfl
    | true =>
      exact absurd (List.mem_map.2 ⟨nd, List.mem_filter.2 ⟨hnd, hp⟩, hb⟩) he.2

theorem ledgerInv_RebuildIndex (f : CGovernanceObjectVoteFile)
    (ha : (f.listVotes.map ListNode.addr).Nodup) : LedgerInv f.RebuildIndex := by
  rw [CGovernanceObjectVoteFile.RebuildIndex_eq]
  have hk : ∀ l : List ListNode,
      vote_m_t.keys (l.map (fun nd => (nd.vote.GetHash, nd.addr))) = listHashes l := by
    intro l; simp [vote_m_t.keys, listHashes]
  have hn := dropRepeatedHashes_nodup (fun nd : ListNode => nd.vote.GetHash) f.listVotes []
  refine ⟨rfl, by simp [vote_m_t.size], hn,
    List.Nodup.sublist ((dropRepeatedHashes_sublist _ _ _).map _) ha, ?_, ?_, ?_, ?_⟩
  · rw [hk]; exact hn
  · intro h hm; rw [hk] at hm; exact hm
  · intro h hm; rw [hk]; exact hm
  · intro e he
    obtain ⟨nd, hnd, rfl⟩ := List.mem_map.1 he
    exact ⟨nd, hnd, rfl, rfl⟩

theorem ledgerInv_run (c : LedgerCall) (f : CGovernanceObjectVoteFile) (hf : LedgerInv f) :
    LedgerInv (c.run f) := by
  cases c with
  | addVote v => exact ledgerInv_AddVote f v hf
  | removeVotesFromMasternode o =>
    simp only [LedgerCall.run, CGovernanceObjectVoteFile.RemoveVotesFromMasternode_eq]
    exact ledgerInv_deleteVotes _ f hf
  | removeInvalidProposalVotes IsValid o =>
    simp only [LedgerCall.run, CGovernanceObjectVoteFile.RemoveInvalidProposalVotes_eq]
    exact ledgerInv_deleteVotes _ f hf
  | removeOldVotes t =>
    simp only [LedgerCall.run, CGovernanceObjectVoteFile.RemoveOldVotes_eq]
    exact ledgerInv_deleteVotes _ f hf
  | rebuildIndex => exact ledgerInv_RebuildIndex f hf.2.2.2.1

theorem ledgerInv_runCalls (calls : List LedgerCall) :
    ∀ f : CGovernanceObjectVoteFile, LedgerInv f → LedgerInv (runCalls calls f) := by
  induction calls with
  | nil => intro f hf; exact hf
  | cons c cs ih =>
    intro f hf
    simp only [runCalls, List.foldl_cons]
    exact ih _ (ledgerInv_run c f hf)

namespace CGovernanceObjectVoteFile

theorem HasVote_deleteVotes (p : CGovernanceVote → Bool) (f : CGovernanceObjectVoteFile)
    (h : uint256) :
    (deleteVotes p f).HasVote h =
      (f.HasVote h && decide (h ∉ listHashes (f.listVotes.filter (fun nd => p nd.vote)))) := by
  rw [Bool.eq_iff_iff]
  simp only [HasVote_iff, Bool.and_eq_true, decide_eq_true_eq, deleteVotes, vote_m_t.keys,
    List.mem_map, List.mem_filter]
  constructor
  · rintro ⟨e, ⟨he, hq⟩, rfl⟩
    exact ⟨⟨e, he, rfl⟩, hq⟩
  · rintro ⟨⟨e, he, rfl⟩, hq⟩
    exact ⟨e, ⟨he, hq⟩, rfl⟩

end CGovernanceObjectVoteFile

namespace CGovernanceObjectVoteFile

theorem HasVote_iff_mem_GetVotes (f : CGovernanceObjectVoteFile) (hf : LedgerInv f)
    (h : uint256) :
    f.HasVote h = true ↔ ∃ v ∈ f.GetVotes.2, v.GetHash = h := by
  obtain ⟨_, _, _, _, _, h6, h7, _⟩ := hf
  rw [HasVote_iff]
  constructor
  · intro hk
    obtain ⟨nd, hnd, hh⟩ := List.mem_map.1 (h6 h hk)
    exact ⟨nd.vote, List.mem_map_of_mem _ hnd, hh⟩
  · rintro ⟨v, hv, hh⟩
    obtain ⟨nd, hnd, rfl⟩ := List.mem_map.1 hv
    exact h7 h (List.mem_map.2 ⟨nd, hnd, hh⟩)

theorem HasVote_deleteVotes_iff (p : CGovernanceVote → Bool) (f : CGovernanceObjectVoteFile)
    (hf : LedgerInv f) (h : uint256) :
    (deleteVotes p f).HasVote h = true ↔
      ∃ v ∈ f.GetVotes.2, v.GetHash = h ∧ p v = false := by
  rw [HasVote_iff_mem_GetVotes _ (ledgerInv_deleteVotes p f hf)]
  simp only [GetVotes, deleteVotes, List.mem_map, List.mem_filter, Bool.not_eq_true']
  constructor
  · rintro ⟨v, ⟨nd, ⟨hnd, hp⟩, rfl⟩, hh⟩
    exact ⟨nd.vote, ⟨nd, hnd, rfl⟩, hh, hp⟩
  · rintro ⟨v, ⟨nd, hnd, rfl⟩, hh, hp⟩
    exact ⟨nd.vote, ⟨nd, ⟨hnd, hp⟩, rfl⟩, hh⟩

theorem votes_addVotes (vs : List CGovernanceVote) : ∀ f : CGovernanceObjectVoteFile,
    (addVotes vs f).listVotes.map ListNode.vote =
      (dropRepeatedHashes CGovernanceVote.GetHash f.mapVoteIndex.keys vs).reverse ++
        f.listVotes.map ListNode.vote := by
  induction vs with
  | nil => intro f; simp [addVotes, dropRepeatedHashes]
  | cons v vs ih =>
    intro f
    have hstep : addVotes (v :: vs) f = addVotes vs (f.AddVote v) := rfl
    rw [hstep, ih]
    cases hv : f.HasVote v.GetHash with
    | true =>
      have hk : v.GetHash ∈ f.mapVoteIndex.keys := (HasVote_iff _ _).1 hv
      rw [AddVote_of_present f v hv]
      simp [dropRepeatedHashes, hk]
    | false =>
      have hk : v.GetHash ∉ f.mapVoteIndex.keys := (HasVote_eq_false_iff _ _).1 hv
      have hk2 : v.GetHash ∉ List.map Prod.fst f.mapVoteIndex := hk
      rw [AddVote_of_absent f v hv]
      simp [dropRepeatedHashes, hk2, vote_m_t.keys]

end CGovernanceObjectVoteFile

namespace CGovernanceObjectVoteFile

theorem GetVotes_deleteVotes (p : CGovernanceVote → Bool) (f : CGovernanceObjectVoteFile) :
    (deleteVotes p f).GetVotes.2 = f.GetVotes.2.filter (fun v => !p v) := by
  simp only [GetVotes, deleteVotes, List.filter_map]
  rfl

theorem removed_length (p : CGovernanceVote → Bool) (l : List ListNode) :
    (l.filter (fun nd => p nd.vote)).length = ((l.map ListNode.vote).filter p).length := by
  rw [List.filter_map, List.length_map]
  rfl

theorem removed_hashes (p : CGovernanceVote → Bool) (l : List ListNode) :
    listHashes (l.filter (fun nd => p nd.vote)) =
      ((l.map ListNode.vote).filter p).map CGovernanceVote.GetHash := by
  rw [List.filter_map, List.map_map]
  rfl

theorem same_vote_of_same_hash (f : CGovernanceObjectVoteFile) (hf : LedgerInv f)
    (v w : CGovernanceVote) (hv : v ∈ f.GetVotes.2) (hw : w ∈ f.GetVotes.2)
    (h : v.GetHash = w.GetHash) : v = w := by
  obtain ⟨a, ha, rfl⟩ := List.mem_map.1 hv
  obtain ⟨b, hb, rfl⟩ := List.mem_map.1 hw
  rw [same_node_of_same_hash f.listVotes hf.2.2.1 a b ha hb h]

theorem derefIt_of_mem (l : List ListNode) (hl : (l.map ListNode.addr).Nodup)
    (nd : ListNode) (hnd : nd ∈ l) : derefIt l nd.addr = some nd.vote := by
  induction l with
  | nil => simp at hnd
  | cons x xs ih =>
    simp only [List.map_cons, List.nodup_cons] at hl
    rcases List.mem_cons.1 hnd with h | h
    · subst h; simp [derefIt]
    · have hne : x.addr ≠ nd.addr := by
        intro e
        exact hl.1 (e ▸ List.mem_map_of_mem _ h)
      simp [derefIt, hne, ih hl.2 h]

end CGovernanceObjectVoteFile

/-! ## The claims -/

/-- C1: in every ledger reached from the empty ledger by a finite sequence of
`AddVote`, `RemoveVotesFromMasternode`, `RemoveInvalidProposalVotes`,
`RemoveOldVotes` and `RebuildIndex` calls (any arguments, any validity check),
`nMemoryVotes` equals the length of `listVotes` and the size of `mapVoteIndex`,
the votes of `listVotes` have pairwise distinct hashes, and the keys of
`mapVoteIndex` are exactly the hashes of the votes of `listVotes`. -/
theorem C1_reachable_ledger_invariant (calls : List LedgerCall) :
    (runCalls calls CGovernanceObjectVoteFile.empty).nMemoryVotes =
        ((runCalls calls CGovernanceObjectVoteFile.empty).listVotes.length : Int) ∧
    (runCalls calls CGovernanceObjectVoteFile.empty).listVotes.length =
        (runCalls calls CGovernanceObjectVoteFile.empty).mapVoteIndex.size ∧
    (((runCalls calls CGovernanceObjectVoteFile.empty).GetVotes.2).map
        CGovernanceVote.GetHash).Nodup ∧
    (∀ h : uint256, h ∈ (runCalls calls CGovernanceObjectVoteFile.empty).mapVoteIndex.keys ↔
        ∃ v ∈ (runCalls calls CGovernanceObjectVoteFile.empty).GetVotes.2, v.GetHash = h) := by
  obtain ⟨h1, h2, h3, _, _, h6, h7, _⟩ :=
    ledgerInv_runCalls calls _ ledgerInv_empty
  refine ⟨h1, h2.symm, ?_, ?_⟩
  · simpa [CGovernanceObjectVoteFile.GetVotes, listHashes, List.map_map] using h3
  · intro h
    constructor
    · intro hk
      obtain ⟨nd, hnd, hh⟩ := List.mem_map.1 (h6 h hk)
      exact ⟨nd.vote, List.mem_map_of_mem _ hnd, hh⟩
    · rintro ⟨v, hv, hh⟩
      obtain ⟨nd, hnd, rfl⟩ := List.mem_map.1 hv
      exact h7 h (List.mem_map.2 ⟨nd, hnd, hh⟩)

/-- C1 evaluated on a sequence of five calls. -/
theorem C1_reachable_ledger_invariant_witness :
    (runCalls [.addVote sampleVote1, .addVote sampleVote2, .addVote sampleVote1b,
        .removeOldVotes 150, .rebuildIndex] CGovernanceObjectVoteFile.empty).GetVotes.2
      = [sampleVote2] ∧
    (runCalls [.addVote sampleVote1, .addVote sampleVote2, .addVote sampleVote1b,
        .removeOldVotes 150, .rebuildIndex] CGovernanceObjectVoteFile.empty).nMemoryVotes = 1 :=
  ⟨by decide, by
    have h := (C1_reachable_ledger_invariant [.addVote sampleVote1, .addVote sampleVote2,
      .addVote sampleVote1b, .removeOldVotes 150, .rebuildIndex]).1
    rw [h]; decide⟩

/-- C2: in every ledger reached from the empty ledger, `HasVote(h)` is true
exactly when a vote of the current sequence (`GetVotes`) has hash `h`. The hash
becomes present by `AddVote`, and it stays present over a removal call exactly
when the vote of the sequence with that hash is not one the call removes. -/
theorem C2_HasVote_iff_vote_in_sequence (calls : List LedgerCall) (h : uint256) :
    ((runCalls calls CGovernanceObjectVoteFile.empty).HasVote h = true ↔
      ∃ v ∈ (runCalls calls CGovernanceObjectVoteFile.empty).GetVotes.2, v.GetHash = h) ∧
    (∀ v : CGovernanceVote,
      ((runCalls calls CGovernanceObjectVoteFile.empty).AddVote v).HasVote h = true ↔
        (v.GetHash = h ∨ (runCalls calls CGovernanceObjectVoteFile.empty).HasVote h = true)) ∧
    (∀ o : COutPoint,
      ((runCalls calls CGovernanceObjectVoteFile.empty).RemoveVotesFromMasternode o).HasVote h
          = true ↔
        ∃ v ∈ (runCalls calls CGovernanceObjectVoteFile.empty).GetVotes.2,
          v.GetHash = h ∧ v.GetMasternodeOutpoint ≠ o) ∧
    (∀ (IsValid : CGovernanceVote → Bool → Bool) (o : COutPoint),
      ((runCalls calls CGovernanceObjectVoteFile.empty).RemoveInvalidProposalVotes
          IsValid o).1.HasVote h = true ↔
        ∃ v ∈ (runCalls calls CGovernanceObjectVoteFile.empty).GetVotes.2,
          v.GetHash = h ∧ ¬ (v.GetSignal = VOTE_SIGNAL_FUNDING ∧
            v.GetMasternodeOutpoint = o ∧ IsValid v true = false)) ∧
    (∀ t : Nat,
      ((runCalls calls CGovernanceObjectVoteFile.empty).RemoveOldVotes t).1.HasVote h = true ↔
        ∃ v ∈ (runCalls calls CGovernanceObjectVoteFile.empty).GetVotes.2,
          v.GetHash = h ∧ (t : Int) ≤ v.GetTimestamp) := by
  have hinv := ledgerInv_runCalls calls _ ledgerInv_empty
  refine ⟨?_, ?_, ?_, ?_, ?_⟩
  · exact CGovernanceObjectVoteFile.HasVote_iff_mem_GetVotes _ hinv h
  · intro v
    cases hv : (runCalls calls CGovernanceObjectVoteFile.empty).HasVote v.GetHash with
    | true =>
      rw [CGovernanceObjectVoteFile.AddVote_of_present _ v hv]
      constructor
      · exact fun hh => Or.inr hh
      · rintro (hh | hh)
        · rw [← hh]; exact hv
        · exact hh
    | false =>
      rw [CGovernanceObjectVoteFile.AddVote_of_absent _ v hv]
      simp only [CGovernanceObjectVoteFile.HasVote_iff, vote_m_t.keys, List.map_cons,
        List.mem_cons]
      constructor
      · rintro (hh | hh)
        · exact Or.inl hh.symm
        · exact Or.inr hh
      · rintro (hh | hh)
        · exact Or.inl hh.symm
        · exact Or.inr hh
  · intro o
    rw [CGovernanceObjectVoteFile.RemoveVotesFromMasternode_eq,
      CGovernanceObjectVoteFile.HasVote_deleteVotes_iff _ _ hinv]
    simp [votedBy]
  · intro IsValid o
    rw [CGovernanceObjectVoteFile.RemoveInvalidProposalVotes_eq,
      CGovernanceObjectVoteFile.HasVote_deleteVotes_iff _ _ hinv]
    simp [invalidFundingVoteOf]
  · intro t
    rw [CGovernanceObjectVoteFile.RemoveOldVotes_eq,
      CGovernanceObjectVoteFile.HasVote_deleteVotes_iff _ _ hinv]
    simp [olderThan]

/-- C2 evaluated: after adding two votes and removing the older one, the hash of
the removed vote is absent and the hash of the other one is present. -/
theorem C2_HasVote_iff_vote_in_sequence_witness :
    (runCalls [.addVote sampleVote1, .addVote sampleVote2, .removeOldVotes 150]
        CGovernanceObjectVoteFile.empty).HasVote 22 = true ∧
    (runCalls [.addVote sampleVote1, .addVote sampleVote2, .removeOldVotes 150]
        CGovernanceObjectVoteFile.empty).HasVote 11 = false ∧
    ∃ v ∈ (runCalls [.addVote sampleVote1, .addVote sampleVote2, .removeOldVotes 150]
        CGovernanceObjectVoteFile.empty).GetVotes.2, v.GetHash = 22 :=
  ⟨by decide, by decide,
    (C2_HasVote_iff_vote_in_sequence [.addVote sampleVote1, .addVote sampleVote2,
      .removeOldVotes 150] 22).1.1 (by decide)⟩

/-- C3: when the hash of `v` is in the index, `AddVote(v)` leaves the ledger
(count, sequence, index) as it was; when it is not, `AddVote(v)` puts `v` at the
front of the sequence, makes `HasVote(v.GetHash())` true and raises the count by
exactly one. -/
theorem C3_AddVote_idempotent_or_front (f : CGovernanceObjectVoteFile) (v : CGovernanceVote) :
    (f.HasVote v.GetHash = true → f.AddVote v = f) ∧
    (f.HasVote v.GetHash = false →
      (f.AddVote v).GetVotes.2 = v :: f.GetVotes.2 ∧
      (f.AddVote v).HasVote v.GetHash = true ∧
      (f.AddVote v).nMemoryVotes = f.nMemoryVotes + 1) := by
  refine ⟨CGovernanceObjectVoteFile.AddVote_of_present f v, ?_⟩
  intro h
  rw [CGovernanceObjectVoteFile.AddVote_of_absent f v h]
  refine ⟨rfl, ?_, rfl⟩
  simp [CGovernanceObjectVoteFile.HasVote, vote_m_t.find]

/-- C3 evaluated: a vote with a known hash is ignored, a new one goes in front. -/
theorem C3_AddVote_idempotent_or_front_witness :
    sampleLedger.HasVote sampleVote1b.GetHash = true ∧
    sampleLedger.AddVote sampleVote1b = sampleLedger ∧
    CGovernanceObjectVoteFile.empty.HasVote sampleVote1.GetHash = false ∧
    (CGovernanceObjectVoteFile.empty.AddVote sampleVote1).GetVotes.2 = [sampleVote1] :=
  ⟨by decide,
    (C3_AddVote_idempotent_or_front sampleLedger sampleVote1b).1 (by decide),
    by decide,
    ((C3_AddVote_idempotent_or_front CGovernanceObjectVoteFile.empty sampleVote1).2
      (by decide)).1⟩

/-- C4: after the votes of `vs` are added one by one to the empty ledger,
`GetVotes` returns them most recent first: the reverse of `vs` without every
vote whose hash is the hash of an earlier vote of `vs`; and `GetVotes` hands the
ledger back as it was. -/
theorem C4_GetVotes_most_recent_first (vs : List CGovernanceVote) :
    (addVotes vs CGovernanceObjectVoteFile.empty).GetVotes.2 =
      (dropRepeatedHashes CGovernanceVote.GetHash [] vs).reverse ∧
    (addVotes vs CGovernanceObjectVoteFile.empty).GetVotes.1 =
      addVotes vs CGovernanceObjectVoteFile.empty := by
  refine ⟨?_, rfl⟩
  have h := CGovernanceObjectVoteFile.votes_addVotes vs CGovernanceObjectVoteFile.empty
  simpa [CGovernanceObjectVoteFile.GetVotes, CGovernanceObjectVoteFile.empty, vote_m_t.keys]
    using h

/-- C4 evaluated on four votes, the third repeating the hash of the first. -/
theorem C4_GetVotes_most_recent_first_witness :
    (addVotes [sampleVote1, sampleVote2, sampleVote1b, sampleVote3]
        CGovernanceObjectVoteFile.empty).GetVotes.2 =
      [sampleVote3, sampleVote2, sampleVote1] := by
  rw [(C4_GetVotes_most_recent_first [sampleVote1, sampleVote2, sampleVote1b, sampleVote3]).1]
  decide

/-- C5: on a ledger satisfying the ledger invariant, after
`RemoveVotesFromMasternode(o)` the sequence is the previous one with exactly the
votes of outpoint `o` deleted (the others in their previous order), `HasVote` is
false for the hash of every removed vote and as before for every other hash, the
count has dropped by the number of removed votes, and the invariant holds
again. -/
theorem C5_RemoveVotesFromMasternode_exact (f : CGovernanceObjectVoteFile) (o : COutPoint)
    (hf : LedgerInv f) :
    (f.RemoveVotesFromMasternode o).GetVotes.2 =
        f.GetVotes.2.filter (fun v => decide (v.GetMasternodeOutpoint ≠ o)) ∧
    (∀ v ∈ f.GetVotes.2, v.GetMasternodeOutpoint = o →
        (f.RemoveVotesFromMasternode o).HasVote v.GetHash = false) ∧
    (∀ h : uint256, (∀ v ∈ f.GetVotes.2, v.GetMasternodeOutpoint = o → v.GetHash ≠ h) →
        (f.RemoveVotesFromMasternode o).HasVote h = f.HasVote h) ∧
    (f.RemoveVotesFromMasternode o).nMemoryVotes =
        f.nMemoryVotes -
          ((f.GetVotes.2.filter (fun v => decide (v.GetMasternodeOutpoint = o))).length : Int) ∧
    LedgerInv (f.RemoveVotesFromMasternode o) := by
  rw [CGovernanceObjectVoteFile.RemoveVotesFromMasternode_eq]
  refine ⟨?_, ?_, ?_, ?_, ledgerInv_deleteVotes _ f hf⟩
  · rw [CGovernanceObjectVoteFile.GetVotes_deleteVotes]
    apply List.filter_congr
    intro v _
    simp [votedBy]
  · intro v hv ho
    rw [CGovernanceObjectVoteFile.HasVote_deleteVotes,
      CGovernanceObjectVoteFile.removed_hashes]
    have : v.GetHash ∈ List.map CGovernanceVote.GetHash
        (List.filter (votedBy o) (List.map ListNode.vote f.listVotes)) :=
      List.mem_map_of_mem _ (List.mem_filter.2 ⟨hv, by simp [votedBy, ho]⟩)
    simp [this]
  · intro h hh
    rw [CGovernanceObjectVoteFile.HasVote_deleteVotes,
      CGovernanceObjectVoteFile.removed_hashes]
    have : h ∉ List.map CGovernanceVote.GetHash
        (List.filter (votedBy o) (List.map ListNode.vote f.listVotes)) := by
      intro hm
      obtain ⟨v, hv, hvh⟩ := List.mem_map.1 hm
      obtain ⟨hv1, hv2⟩ := List.mem_filter.1 hv
      exact hh v hv1 (by simpa [votedBy] using hv2) hvh
    simp [this]
  · simp only [deleteVotes, CGovernanceObjectVoteFile.removed_length,
      CGovernanceObjectVoteFile.GetVotes]
    rfl

/-- C5 evaluated on the sample ledger: the two votes of masternode (7, 0) go,
the vote of masternode (8, 1), which sat between them, stays. -/
theorem C5_RemoveVotesFromMasternode_exact_witness :
    LedgerInv sampleLedger ∧
    (sampleLedger.RemoveVotesFromMasternode ⟨7, 0⟩).GetVotes.2 = [sampleVote2] ∧
    (sampleLedger.RemoveVotesFromMasternode ⟨7, 0⟩).nMemoryVotes = 1 :=
  ⟨by decide,
    by rw [(C5_RemoveVotesFromMasternode_exact sampleLedger ⟨7, 0⟩ (by decide)).1]; decide,
    by decide⟩

/-- C6: on a ledger satisfying the ledger invariant, after `RemoveOldVotes(t)`
no vote of `GetVotes` has a timestamp below `t`, and the length of the returned
list of hashes is the count before the call minus the count after it. -/
theorem C6_RemoveOldVotes_none_older (f : CGovernanceObjectVoteFile) (t : Nat)
    (hf : LedgerInv f) :
    (∀ v ∈ (f.RemoveOldVotes t).1.GetVotes.2, ¬ v.GetTimestamp < (t : Int)) ∧
    (((f.RemoveOldVotes t).2.length : Int) =
        f.nMemoryVotes - (f.RemoveOldVotes t).1.nMemoryVotes) ∧
    (f.RemoveOldVotes t).1.nMemoryVotes = ((f.RemoveOldVotes t).1.GetVotes.2.length : Int) := by
  have hinv := ledgerInv_deleteVotes (olderThan t) f hf
  rw [CGovernanceObjectVoteFile.RemoveOldVotes_eq]
  refine ⟨?_, ?_, ?_⟩
  · intro v hv
    rw [CGovernanceObjectVoteFile.GetVotes_deleteVotes] at hv
    simpa [olderThan] using (List.mem_filter.1 hv).2
  · simp only [deleteVotes, listHashes, List.length_map]
    omega
  · simpa [CGovernanceObjectVoteFile.GetVotes] using hinv.1

/-- C6 evaluated on the sample ledger with threshold 250: two votes go. -/
theorem C6_RemoveOldVotes_none_older_witness :
    LedgerInv sampleLedger ∧
    (sampleLedger.RemoveOldVotes 250).2.length = 2 ∧
    (∀ v ∈ (sampleLedger.RemoveOldVotes 250).1.GetVotes.2, ¬ v.GetTimestamp < ((250 : Nat) : Int)) :=
  ⟨by decide, by decide, (C6_RemoveOldVotes_none_older sampleLedger 250 (by decide)).1⟩

/-- C7: for every ledger, `RemoveOldVotes(minTime)` returns the hashes of the
votes with timestamp strictly below `minTime`, in the order these votes had in
the sequence; the votes with timestamp at least `minTime` stay, in their
previous order, and so does a vote with timestamp exactly `minTime`. -/
theorem C7_RemoveOldVotes_result (f : CGovernanceObjectVoteFile) (minTime : Nat) :
    (f.RemoveOldVotes minTime).2 =
        (f.GetVotes.2.filter (fun v => decide (v.GetTimestamp < (minTime : Int)))).map
          CGovernanceVote.GetHash ∧
    (f.RemoveOldVotes minTime).1.GetVotes.2 =
        f.GetVotes.2.filter (fun v => decide ((minTime : Int) ≤ v.GetTimestamp)) ∧
    (∀ v ∈ f.GetVotes.2, v.GetTimestamp = (minTime : Int) →
        v ∈ (f.RemoveOldVotes minTime).1.GetVotes.2) := by
  rw [CGovernanceObjectVoteFile.RemoveOldVotes_eq]
  have h2 : (deleteVotes (olderThan minTime) f).GetVotes.2 =
      f.GetVotes.2.filter (fun v => decide ((minTime : Int) ≤ v.GetTimestamp)) := by
    rw [CGovernanceObjectVoteFile.GetVotes_deleteVotes]
    apply List.filter_congr
    intro v _
    by_cases h : v.GetTimestamp < (minTime : Int)
    · have h3 : ¬ (minTime : Int) ≤ v.GetTimestamp := by omega
      simp [olderThan, h, h3]
    · have h3 : (minTime : Int) ≤ v.GetTimestamp := by omega
      simp [olderThan, h, h3]
  refine ⟨?_, h2, ?_⟩
  · exact CGovernanceObjectVoteFile.removed_hashes (olderThan minTime) f.listVotes
  · intro v hv ht
    simp only [h2]
    exact List.mem_filter.2 ⟨hv, by simp [ht]⟩

/-- C7 evaluated on the sample ledger (sequence: votes 3, 2, 1) with threshold
200: only vote 1 goes, vote 2 with timestamp exactly 200 stays. -/
theorem C7_RemoveOldVotes_result_witness :
    (sampleLedger.RemoveOldVotes 200).2 = [11] ∧
    (sampleLedger.RemoveOldVotes 200).1.GetVotes.2 = [sampleVote3, sampleVote2] ∧
    (sampleLedger.RemoveOldVotes 250).2 = [22, 11] :=
  ⟨by rw [(C7_RemoveOldVotes_result sampleLedger 200).1]; decide, by decide, by decide⟩

/-- C8: on a ledger satisfying the ledger invariant, for every outpoint `o` and
every validity check, `RemoveInvalidProposalVotes(o)` removes exactly the votes
with signal `VOTE_SIGNAL_FUNDING`, signer outpoint `o` and a failed strict check
`IsValid(true)`; the returned set is the set of hashes of the removed votes; a
vote of the ledger with another signal or another outpoint has its hash outside
the returned set and stays in the sequence, the survivors keeping their order. -/
theorem C8_RemoveInvalidProposalVotes_exact (IsValid : CGovernanceVote → Bool → Bool)
    (f : CGovernanceObjectVoteFile) (o : COutPoint) (hf : LedgerInv f) :
    (f.RemoveInvalidProposalVotes IsValid o).1.GetVotes.2 =
        f.GetVotes.2.filter (fun v => decide (¬ (v.GetSignal = VOTE_SIGNAL_FUNDING ∧
          v.GetMasternodeOutpoint = o ∧ IsValid v true = false))) ∧
    (∀ h : uint256, h ∈ (f.RemoveInvalidProposalVotes IsValid o).2 ↔
        ∃ v ∈ f.GetVotes.2, v.GetHash = h ∧ v.GetSignal = VOTE_SIGNAL_FUNDING ∧
          v.GetMasternodeOutpoint = o ∧ IsValid v true = false) ∧
    (∀ v ∈ f.GetVotes.2,
        (v.GetSignal ≠ VOTE_SIGNAL_FUNDING ∨ v.GetMasternodeOutpoint ≠ o) →
          v.GetHash ∉ (f.RemoveInvalidProposalVotes IsValid o).2 ∧
          v ∈ (f.RemoveInvalidProposalVotes IsValid o).1.GetVotes.2) ∧
    LedgerInv (f.RemoveInvalidProposalVotes IsValid o).1 := by
  rw [CGovernanceObjectVoteFile.RemoveInvalidProposalVotes_eq]
  have hcrit : ∀ v : CGovernanceVote, invalidFundingVoteOf IsValid o v = true ↔
      (v.GetSignal = VOTE_SIGNAL_FUNDING ∧ v.GetMasternodeOutpoint = o ∧
        IsValid v true = false) := by
    intro v
    simp [invalidFundingVoteOf, and_assoc]
  have hret : ∀ h : uint256,
      h ∈ (listHashes (f.listVotes.filter
        (fun nd => invalidFundingVoteOf IsValid o nd.vote))).toFinset ↔
      ∃ v ∈ f.GetVotes.2, v.GetHash = h ∧ v.GetSignal = VOTE_SIGNAL_FUNDING ∧
          v.GetMasternodeOutpoint = o ∧ IsValid v true = false := by
    intro h
    rw [List.mem_toFinset, CGovernanceObjectVoteFile.removed_hashes]
    simp only [List.mem_map, List.mem_filter, CGovernanceObjectVoteFile.GetVotes, hcrit]
    constructor
    · rintro ⟨v, ⟨hv, hc⟩, hh⟩
      exact ⟨v, hv, hh, hc⟩
    · rintro ⟨v, hv, hh, hc⟩
      exact ⟨v, ⟨hv, hc⟩, hh⟩
  have hseq : (deleteVotes (invalidFundingVoteOf IsValid o) f).GetVotes.2 =
      f.GetVotes.2.filter (fun v => decide (¬ (v.GetSignal = VOTE_SIGNAL_FUNDING ∧
          v.GetMasternodeOutpoint = o ∧ IsValid v true = false))) := by
    rw [CGovernanceObjectVoteFile.GetVotes_deleteVotes]
    apply List.filter_congr
    intro v _
    by_cases hc : invalidFundingVoteOf IsValid o v = true
    · have := (hcrit v).1 hc
      simp [hc, this]
    · have h2 : ¬ (v.GetSignal = VOTE_SIGNAL_FUNDING ∧ v.GetMasternodeOutpoint = o ∧
          IsValid v true = false) := fun h => hc ((hcrit v).2 h)
      have hc2 : invalidFundingVoteOf IsValid o v = false := by simpa using hc
      rw [hc2, decide_eq_true h2]
      rfl
  refine ⟨hseq, hret, ?_, ledgerInv_deleteVotes _ f hf⟩
  intro v hv hor
  constructor
  · intro hm
    obtain ⟨w, hw, hh, hs, ho, _⟩ := (hret v.GetHash).1 hm
    have : w = v := CGovernanceObjectVoteFile.same_vote_of_same_hash f hf w v hw hv hh
    subst this
    rcases hor with h | h
    · exact h hs
    · exact h ho
  · simp only [hseq]
    refine List.mem_filter.2 ⟨hv, ?_⟩
    simp only [decide_eq_true_eq]
    rintro ⟨hs, ho, _⟩
    rcases hor with h | h
    · exact h hs
    · exact h ho

/-- C8 evaluated on the sample ledger with a check that rejects every vote:
only the funding vote of masternode (7, 0) goes; its vote with another signal
and the funding vote of masternode (8, 1) stay, though they fail the check. -/
theorem C8_RemoveInvalidProposalVotes_exact_witness :
    LedgerInv sampleLedger ∧
    (sampleLedger.RemoveInvalidProposalVotes sampleRejectAll ⟨7, 0⟩).1.GetVotes.2 =
      [sampleVote3, sampleVote2] ∧
    (sampleLedger.RemoveInvalidProposalVotes sampleRejectAll ⟨7, 0⟩).2 = {11} ∧
    sampleVote3.GetHash ∉ (sampleLedger.RemoveInvalidProposalVotes sampleRejectAll ⟨7, 0⟩).2 :=
  ⟨by decide, by decide, by decide,
    ((C8_RemoveInvalidProposalVotes_exact sampleRejectAll sampleLedger ⟨7, 0⟩
      (by decide)).2.2.1 sampleVote3 (by decide) (Or.inl (by decide))).1⟩

/-- C9: for every ledger state whatsoever, after `RebuildIndex()` the hash of
every vote of the resulting sequence is found by `HasVote`, every hash that
occurred in the input sequence occurs exactly once in the resulting sequence,
and count, sequence length and index size agree. -/
theorem C9_RebuildIndex_heals (f : CGovernanceObjectVoteFile) :
    (∀ v ∈ f.RebuildIndex.GetVotes.2, f.RebuildIndex.HasVote v.GetHash = true) ∧
    (∀ v ∈ f.GetVotes.2,
        (f.RebuildIndex.GetVotes.2.map CGovernanceVote.GetHash).count v.GetHash = 1) ∧
    f.RebuildIndex.nMemoryVotes = (f.RebuildIndex.listVotes.length : Int) ∧
    f.RebuildIndex.listVotes.length = f.RebuildIndex.mapVoteIndex.size := by
  have hh : ∀ l : List ListNode,
      (l.map ListNode.vote).map CGovernanceVote.GetHash = l.map (fun nd => nd.vote.GetHash) := by
    intro l; simp [List.map_map]
  rw [CGovernanceObjectVoteFile.RebuildIndex_eq]
  refine ⟨?_, ?_, rfl, by simp [vote_m_t.size]⟩
  · intro v hv
    rw [CGovernanceObjectVoteFile.HasVote_iff]
    obtain ⟨nd, hnd, rfl⟩ := List.mem_map.1 hv
    simp only [vote_m_t.keys, List.map_map]
    exact List.mem_map.2 ⟨nd, hnd, rfl⟩
  · intro v hv
    simp only [CGovernanceObjectVoteFile.GetVotes, hh]
    apply List.count_eq_one_of_mem (dropRepeatedHashes_nodup _ _ _)
    rw [mem_dropRepeatedHashes_hash]
    refine ⟨?_, by simp⟩
    rw [← hh]
    exact List.mem_map_of_mem _ hv

/-- C9 evaluated on an inconsistent ledger: two votes with one hash, a wrong
count and a stale index entry. -/
theorem C9_RebuildIndex_heals_witness :
    (CGovernanceObjectVoteFile.RebuildIndex
      { nMemoryVotes := -4
        listVotes := [⟨1, sampleVote1b⟩, ⟨2, sampleVote2⟩, ⟨3, sampleVote1⟩]
        mapVoteIndex := [(99, 5)] }) =
      { nMemoryVotes := 2
        listVotes := [⟨1, sampleVote1b⟩, ⟨2, sampleVote2⟩]
        mapVoteIndex := [(11, 1), (22, 2)] } ∧
    ((CGovernanceObjectVoteFile.RebuildIndex
      { nMemoryVotes := -4
        listVotes := [⟨1, sampleVote1b⟩, ⟨2, sampleVote2⟩, ⟨3, sampleVote1⟩]
        mapVoteIndex := [(99, 5)] }).GetVotes.2.map CGovernanceVote.GetHash).count
          sampleVote1.GetHash = 1 :=
  ⟨by decide,
    (C9_RebuildIndex_heals
      { nMemoryVotes := -4
        listVotes := [⟨1, sampleVote1b⟩, ⟨2, sampleVote2⟩, ⟨3, sampleVote1⟩]
        mapVoteIndex := [(99, 5)] }).2.1 sampleVote1 (by decide)⟩

/-- C10: on a ledger satisfying the ledger invariant, for every hash `h` and
every stream contents `s`, `SerializeVoteToStream(h, s)` returns false and
leaves the stream as it was when `HasVote(h)` is false, and returns true with
the stream extended by the serialization of the one vote of the sequence with
hash `h` when `HasVote(h)` is true; the ledger is handed back unchanged. -/
theorem C10_SerializeVoteToStream (ser : CGovernanceVote → List Nat)
    (f : CGovernanceObjectVoteFile) (h : uint256) (s : CDataStream) (hf : LedgerInv f) :
    (f.HasVote h = false → f.SerializeVoteToStream ser h s = some (f, false, s)) ∧
    (f.HasVote h = true →
      ∃ v ∈ f.GetVotes.2, v.GetHash = h ∧ (∀ w ∈ f.GetVotes.2, w.GetHash = h → w = v) ∧
        f.SerializeVoteToStream ser h s = some (f, true, s ++ ser v)) := by
  constructor
  · intro hh
    have hn : f.mapVoteIndex.find h = none := by
      simpa [CGovernanceObjectVoteFile.HasVote] using hh
    simp [CGovernanceObjectVoteFile.SerializeVoteToStream, hn]
  · intro hh
    obtain ⟨it, hit⟩ := Option.isSome_iff_exists.1 hh
    obtain ⟨nd, hnd, ha, hb⟩ := hf.2.2.2.2.2.2.2 _ (vote_m_t.find_mem _ _ _ hit)
    have hd : derefIt f.listVotes it = some nd.vote := by
      have := CGovernanceObjectVoteFile.derefIt_of_mem f.listVotes hf.2.2.2.1 nd hnd
      rwa [ha] at this
    have hv : nd.vote ∈ f.GetVotes.2 := List.mem_map_of_mem _ hnd
    refine ⟨nd.vote, hv, hb, ?_, ?_⟩
    · intro w hw hwh
      exact CGovernanceObjectVoteFile.same_vote_of_same_hash f hf w nd.vote hw hv
        (hwh.trans hb.symm)
    · simp [CGovernanceObjectVoteFile.SerializeVoteToStream, hit, hd]

/-- C10 evaluated on the sample ledger, writing a vote as its hash followed by
its timestamp: hash 22 is found and written, hash 44 is not and nothing is
written. -/
theorem C10_SerializeVoteToStream_witness :
    LedgerInv sampleLedger ∧
    sampleLedger.SerializeVoteToStream sampleSer 22 [5] = some (sampleLedger, true, [5, 22, 200]) ∧
    sampleLedger.SerializeVoteToStream sampleSer 44 [5] = some (sampleLedger, false, [5]) :=
  ⟨by decide, by decide,
    (C10_SerializeVoteToStream sampleSer sampleLedger 44 [5] (by decide)).1 (by decide)⟩

namespace CGovernanceObjectVoteFile

theorem filter_removed_of_kept (p : CGovernanceVote → Bool) (l : List ListNode) :
    (l.filter (fun nd => !p nd.vote)).filter (fun nd => p nd.vote) = [] := by
  rw [List.filter_eq_nil_iff]
  intro nd hnd
  have := (List.mem_filter.1 hnd).2
  simpa using this

theorem deleteVotes_twice (p : CGovernanceVote → Bool) (f : CGovernanceObjectVoteFile) :
    deleteVotes p (deleteVotes p f) = deleteVotes p f := by
  have h0 := filter_removed_of_kept p f.listVotes
  simp only [deleteVotes, h0, List.filter_filter, Bool.and_self, listHashes, List.map_nil,
    List.not_mem_nil, not_false_eq_true, decide_True, Bool.true_and, List.length_nil,
    Int.ofNat_zero, Nat.cast_zero, sub_zero]

end CGovernanceObjectVoteFile

/-- C11: on a ledger satisfying the ledger invariant, a second
`RemoveVotesFromMasternode(o)` right after the first leaves the ledger (count,
sequence, index) as the first left it; a second `RemoveOldVotes(t)` right after
the first returns an empty list and leaves the ledger as the first left it; and
the count is not negative after any of these calls. -/
theorem C11_double_removal_no_op (f : CGovernanceObjectVoteFile) (o : COutPoint) (t : Nat)
    (hf : LedgerInv f) :
    (f.RemoveVotesFromMasternode o).RemoveVotesFromMasternode o =
        f.RemoveVotesFromMasternode o ∧
    (f.RemoveOldVotes t).1.RemoveOldVotes t = ((f.RemoveOldVotes t).1, []) ∧
    0 ≤ (f.RemoveVotesFromMasternode o).nMemoryVotes ∧
    0 ≤ ((f.RemoveVotesFromMasternode o).RemoveVotesFromMasternode o).nMemoryVotes ∧
    0 ≤ (f.RemoveOldVotes t).1.nMemoryVotes ∧
    0 ≤ ((f.RemoveOldVotes t).1.RemoveOldVotes t).1.nMemoryVotes := by
  have hnn : ∀ p : CGovernanceVote → Bool, 0 ≤ (deleteVotes p f).nMemoryVotes := by
    intro p
    rw [(ledgerInv_deleteVotes p f hf).1]
    exact Int.ofNat_nonneg _
  have hold : (f.RemoveOldVotes t).1.RemoveOldVotes t = ((f.RemoveOldVotes t).1, []) := by
    have h0 := CGovernanceObjectVoteFile.filter_removed_of_kept (olderThan t) f.listVotes
    have h1 : (deleteVotes (olderThan t) f).listVotes =
        f.listVotes.filter (fun nd => !olderThan t nd.vote) := rfl
    rw [CGovernanceObjectVoteFile.RemoveOldVotes_eq f t,
      CGovernanceObjectVoteFile.RemoveOldVotes_eq (deleteVotes (olderThan t) f) t,
      CGovernanceObjectVoteFile.deleteVotes_twice, h1, h0]
    rfl
  have hmn : (f.RemoveVotesFromMasternode o).RemoveVotesFromMasternode o =
      f.RemoveVotesFromMasternode o := by
    rw [CGovernanceObjectVoteFile.RemoveVotesFromMasternode_eq f o,
      CGovernanceObjectVoteFile.RemoveVotesFromMasternode_eq (deleteVotes (votedBy o) f) o,
      CGovernanceObjectVoteFile.deleteVotes_twice]
  refine ⟨hmn, hold, ?_, ?_, ?_, ?_⟩
  · rw [CGovernanceObjectVoteFile.RemoveVotesFromMasternode_eq]; exact hnn _
  · rw [hmn, CGovernanceObjectVoteFile.RemoveVotesFromMasternode_eq]; exact hnn _
  · rw [CGovernanceObjectVoteFile.RemoveOldVotes_eq]; exact hnn _
  · rw [hold, CGovernanceObjectVoteFile.RemoveOldVotes_eq]; exact hnn _

/-- C11 evaluated on the sample ledger. -/
theorem C11_double_removal_no_op_witness :
    LedgerInv sampleLedger ∧
    (sampleLedger.RemoveVotesFromMasternode ⟨7, 0⟩).RemoveVotesFromMasternode ⟨7, 0⟩ =
      sampleLedger.RemoveVotesFromMasternode ⟨7, 0⟩ ∧
    ((sampleLedger.RemoveOldVotes 250).1.RemoveOldVotes 250).2 = [] ∧
    (sampleLedger.RemoveOldVotes 250).1.nMemoryVotes = 1 :=
  ⟨by decide, (C11_double_removal_no_op sampleLedger ⟨7, 0⟩ 250 (by decide)).1,
    by decide, by decide⟩

/-! ## The PoSe ban score -/

namespace CMasternode

theorem score_IncreasePoSeBanScore (m : CMasternode) :
    m.IncreasePoSeBanScore.nPoSeBanScore =
      if m.nPoSeBanScore < 5 then m.nPoSeBanScore + 1 else m.nPoSeBanScore := by
  unfold IncreasePoSeBanScore MASTERNODE_POSE_BAN_MAX_SCORE
  split <;> rfl

theorem score_DecreasePoSeBanScore (m : CMasternode) :
    m.DecreasePoSeBanScore.nPoSeBanScore =
      if m.nPoSeBanScore > -5 then m.nPoSeBanScore - 1 else m.nPoSeBanScore := by
  unfold DecreasePoSeBanScore MASTERNODE_POSE_BAN_MAX_SCORE
  split <;> rfl

theorem score_PoSeBan (m : CMasternode) : m.PoSeBan.nPoSeBanScore = 5 := rfl

theorem score_decreaseTimes (k : Nat) : ∀ m : CMasternode,
    -5 ≤ m.nPoSeBanScore - (k : Int) →
      (decreaseTimes k m).nPoSeBanScore = m.nPoSeBanScore - (k : Int) := by
  induction k with
  | zero => intro m _; simp [decreaseTimes]
  | succ k ih =>
    intro m h
    have hs := score_DecreasePoSeBanScore m
    have hgt : m.nPoSeBanScore > -5 := by push_cast at h; omega
    rw [if_pos hgt] at hs
    simp only [decreaseTimes]
    rw [ih m.DecreasePoSeBanScore (by rw [hs]; push_cast at h; omega), hs]
    push_cast
    omega

end CMasternode

theorem score_run_in_range (c : PoSeCall) (m : CMasternode)
    (h : -5 ≤ m.nPoSeBanScore ∧ m.nPoSeBanScore ≤ 5) :
    -5 ≤ (c.run m).nPoSeBanScore ∧ (c.run m).nPoSeBanScore ≤ 5 := by
  cases c with
  | increase =>
    simp only [PoSeCall.run, CMasternode.score_IncreasePoSeBanScore]
    split <;> omega
  | decrease =>
    simp only [PoSeCall.run, CMasternode.score_DecreasePoSeBanScore]
    split <;> omega
  | ban =>
    simp only [PoSeCall.run, CMasternode.score_PoSeBan]
    omega

theorem score_runPoSeCalls_in_range (calls : List PoSeCall) : ∀ m : CMasternode,
    (-5 ≤ m.nPoSeBanScore ∧ m.nPoSeBanScore ≤ 5) →
      -5 ≤ (runPoSeCalls calls m).nPoSeBanScore ∧ (runPoSeCalls calls m).nPoSeBanScore ≤ 5 := by
  induction calls with
  | nil => intro m h; exact h
  | cons c cs ih =>
    intro m h
    simp only [runPoSeCalls, List.foldl_cons]
    exact ih _ (score_run_in_range c m h)

/-- C12: the PoSe ban score never leaves [-5, 5]: for a masternode whose
`nPoSeBanScore` is in [-5, 5] (its constructed value 0 is), after any finite
sequence of `IncreasePoSeBanScore`, `DecreasePoSeBanScore` and `PoSeBan` calls
`-MASTERNODE_POSE_BAN_MAX_SCORE <= nPoSeBanScore <= MASTERNODE_POSE_BAN_MAX_SCORE`,
where `MASTERNODE_POSE_BAN_MAX_SCORE` is 5. -/
theorem C12_PoSe_score_stays_in_range (m : CMasternode) (calls : List PoSeCall)
    (hlo : -5 ≤ m.nPoSeBanScore) (hhi : m.nPoSeBanScore ≤ 5) :
    -MASTERNODE_POSE_BAN_MAX_SCORE ≤ (runPoSeCalls calls m).nPoSeBanScore ∧
    (runPoSeCalls calls m).nPoSeBanScore ≤ MASTERNODE_POSE_BAN_MAX_SCORE ∧
    MASTERNODE_POSE_BAN_MAX_SCORE = 5 :=
  ⟨(score_runPoSeCalls_in_range calls m ⟨hlo, hhi⟩).1,
    (score_runPoSeCalls_in_range calls m ⟨hlo, hhi⟩).2, rfl⟩

/-- C12 evaluated from the constructed score 0: seven increases stop at 5. -/
theorem C12_PoSe_score_stays_in_range_witness :
    CMasternode.init.nPoSeBanScore = 0 ∧
    (runPoSeCalls [.increase, .increase, .increase, .increase, .increase, .increase, .increase]
      CMasternode.init).nPoSeBanScore = 5 ∧
    (runPoSeCalls [.ban, .decrease, .increase, .increase]
      CMasternode.init).nPoSeBanScore ≤ MASTERNODE_POSE_BAN_MAX_SCORE :=
  ⟨by decide, by decide,
    (C12_PoSe_score_stays_in_range CMasternode.init [.ban, .decrease, .increase, .increase]
      (by decide) (by decide)).2.1⟩

/-- C13: for a score `s` in [-5, 5], `IncreasePoSeBanScore` yields
`min(s + 1, 5)` and `DecreasePoSeBanScore` yields `max(s - 1, -5)`; so an
increase at +5 and a decrease at -5 change nothing, and an increase followed by
a decrease gives `s` back exactly when `s < 5`. -/
theorem C13_PoSe_step_clamped (m : CMasternode)
    (hlo : -5 ≤ m.nPoSeBanScore) (hhi : m.nPoSeBanScore ≤ 5) :
    m.IncreasePoSeBanScore.nPoSeBanScore = min (m.nPoSeBanScore + 1) 5 ∧
    m.DecreasePoSeBanScore.nPoSeBanScore = max (m.nPoSeBanScore - 1) (-5) ∧
    (m.nPoSeBanScore = 5 → m.IncreasePoSeBanScore = m) ∧
    (m.nPoSeBanScore = -5 → m.DecreasePoSeBanScore = m) ∧
    (m.IncreasePoSeBanScore.DecreasePoSeBanScore.nPoSeBanScore = m.nPoSeBanScore ↔
      m.nPoSeBanScore < 5) := by
  have hi := CMasternode.score_IncreasePoSeBanScore m
  have hd := CMasternode.score_DecreasePoSeBanScore m
  have hid := CMasternode.score_DecreasePoSeBanScore m.IncreasePoSeBanScore
  refine ⟨?_, ?_, ?_, ?_, ?_⟩
  · rw [hi]; split <;> omega
  · rw [hd]; split <;> omega
  · intro h
    simp [CMasternode.IncreasePoSeBanScore, MASTERNODE_POSE_BAN_MAX_SCORE, h]
  · intro h
    simp [CMasternode.DecreasePoSeBanScore, MASTERNODE_POSE_BAN_MAX_SCORE, h]
  · rw [hid, hi]
    split <;> split <;> omega

/-- C13 evaluated at the scores 5, -5 and 0. -/
theorem C13_PoSe_step_clamped_witness :
    ({ CMasternode.init with nPoSeBanScore := 5 } : CMasternode).IncreasePoSeBanScore.nPoSeBanScore
      = 5 ∧
    ({ CMasternode.init with nPoSeBanScore := -5 } : CMasternode).DecreasePoSeBanScore.nPoSeBanScore
      = -5 ∧
    CMasternode.init.IncreasePoSeBanScore.nPoSeBanScore = min (0 + 1) 5 :=
  ⟨by decide, by decide,
    (C13_PoSe_step_clamped CMasternode.init (by decide) (by decide)).1⟩

/-- C14: whatever `nPoSeBanScore` was before, in range or not, `PoSeBan()` sets
it to exactly +5, which is `MASTERNODE_POSE_BAN_MAX_SCORE`. -/
theorem C14_PoSeBan_sets_max (m : CMasternode) :
    m.PoSeBan.nPoSeBanScore = 5 ∧ m.PoSeBan.nPoSeBanScore = MASTERNODE_POSE_BAN_MAX_SCORE :=
  ⟨rfl, rfl⟩

/-- C14 evaluated at a score far out of range. -/
theorem C14_PoSeBan_sets_max_witness :
    ({ CMasternode.init with nPoSeBanScore := -2147483648 } : CMasternode).PoSeBan.nPoSeBanScore
      = 5 :=
  (C14_PoSeBan_sets_max _).1

/-- C15: `IsPoSeVerified()` is true exactly when `nPoSeBanScore <= -5`, whatever
`nActiveState` is; so after `PoSeBan()` it is false after any `k < 10`
consecutive `DecreasePoSeBanScore` calls and true after 10, and a node with a
score in [-4, 4] is not verified. -/
theorem C15_IsPoSeVerified (m : CMasternode) :
    (m.IsPoSeVerified = true ↔ m.nPoSeBanScore ≤ -5) ∧
    (∀ s : Int, ({ m with nActiveState := s } : CMasternode).IsPoSeVerified = m.IsPoSeVerified) ∧
    (∀ k : Nat, k < 10 → (decreaseTimes k m.PoSeBan).IsPoSeVerified = false) ∧
    (decreaseTimes 10 m.PoSeBan).IsPoSeVerified = true ∧
    (-4 ≤ m.nPoSeBanScore → m.nPoSeBanScore ≤ 4 → m.IsPoSeVerified = false) := by
  have hv : ∀ g : CMasternode, g.IsPoSeVerified = true ↔ g.nPoSeBanScore ≤ -5 := by
    intro g
    simp [CMasternode.IsPoSeVerified, MASTERNODE_POSE_BAN_MAX_SCORE]
  have hk : ∀ k : Nat, k ≤ 10 →
      (decreaseTimes k m.PoSeBan).nPoSeBanScore = 5 - (k : Int) := by
    intro k hk
    rw [CMasternode.score_decreaseTimes k m.PoSeBan
      (by rw [CMasternode.score_PoSeBan]; omega), CMasternode.score_PoSeBan]
  refine ⟨hv m, fun s => rfl, ?_, ?_, ?_⟩
  · intro k hlt
    have := hk k (by omega)
    rw [← Bool.not_eq_true, hv, this]
    omega
  · rw [hv, hk 10 (by omega)]
    norm_num
  · intro h1 h2
    rw [← Bool.not_eq_true, hv]
    omega

/-- C15 evaluated: nine decreases after a ban do not verify, ten do. -/
theorem C15_IsPoSeVerified_witness :
    (decreaseTimes 9 CMasternode.init.PoSeBan).IsPoSeVerified = false ∧
    (decreaseTimes 10 CMasternode.init.PoSeBan).IsPoSeVerified = true ∧
    CMasternode.init.IsPoSeVerified = false :=
  ⟨(C15_IsPoSeVerified CMasternode.init).2.2.1 9 (by decide), by decide, by decide⟩

/-! ## Pings -/

theorem int64_wrap_of_fits (x : Int) (hlo : -2 ^ 63 ≤ x) (hhi : x < 2 ^ 63) :
    int64_wrap x = x := by
  unfold int64_wrap
  rw [Int.emod_eq_of_lt (by omega) (by omega)]
  omega

/-- C16: a `CMasternodePing` is truthy exactly when it is not equal (by the
ping's `operator==`, which compares only `masternodeOutpoint` and `blockHash`)
to the default-constructed ping, that is when its outpoint is not the default
outpoint or its block hash is not the zero hash; a truthy ping differs from the
default-constructed value, and a ping with the default outpoint and the zero
block hash is falsy whatever its other five members are. -/
theorem C16_ping_truthy (p : CMasternodePing) :
    (p.operator_bool = true ↔ CMasternodePing.operator_eq p CMasternodePing.default = false) ∧
    (∀ a b : CMasternodePing, CMasternodePing.operator_eq a b = true ↔
      (a.masternodeOutpoint = b.masternodeOutpoint ∧ a.blockHash = b.blockHash)) ∧
    (p.operator_bool = true ↔ (p.masternodeOutpoint ≠ COutPoint.Null ∨ p.blockHash ≠ 0)) ∧
    (p.operator_bool = true → p ≠ CMasternodePing.default) ∧
    (∀ (sigTime : Int) (vchSig : List Nat) (fSentinelIsCurrent : Bool)
        (nSentinelVersion nDaemonVersion : Nat),
      CMasternodePing.operator_bool
        { masternodeOutpoint := COutPoint.Null, blockHash := 0, sigTime := sigTime,
          vchSig := vchSig, fSentinelIsCurrent := fSentinelIsCurrent,
          nSentinelVersion := nSentinelVersion, nDaemonVersion := nDaemonVersion } = false) := by
  have hb : p.operator_bool = true ↔
      (p.masternodeOutpoint ≠ COutPoint.Null ∨ p.blockHash ≠ 0) := by
    simp only [CMasternodePing.operator_bool, CMasternodePing.operator_ne,
      CMasternodePing.operator_eq, CMasternodePing.default, Bool.not_eq_true',
      Bool.and_eq_false_iff, decide_eq_false_iff_not, ne_eq]
  refine ⟨?_, ?_, hb, ?_, ?_⟩
  · simp [CMasternodePing.operator_bool, CMasternodePing.operator_ne]
  · intro a b
    simp [CMasternodePing.operator_eq]
  · intro h e
    rw [e] at h
    exact absurd h (by decide)
  · intro sigTime vchSig fSentinelIsCurrent nSentinelVersion nDaemonVersion
    simp [CMasternodePing.operator_bool, CMasternodePing.operator_ne,
      CMasternodePing.operator_eq, CMasternodePing.default]

/-- C16 evaluated: a signed ping with default outpoint and zero block hash is
falsy; a ping with another outpoint is truthy. -/
theorem C16_ping_truthy_witness :
    CMasternodePing.operator_bool
      { sigTime := 1700000000, vchSig := [1, 2, 3], fSentinelIsCurrent := true } = false ∧
    CMasternodePing.operator_bool { masternodeOutpoint := ⟨7, 0⟩ } = true :=
  ⟨by decide,
    ((C16_ping_truthy { masternodeOutpoint := ⟨7, 0⟩ }).2.2.1).2 (Or.inl (by decide))⟩

/-- C17, as the claim states it for every ping and every time, fails: at time
1700000000 a ping signed at the least 64-bit value has `now - sigTime` far above
10800, and `IsExpired()` is false, the 64-bit difference having wrapped. -/
theorem C17_counterexample :
    ¬ (sampleEarliestPing.IsExpired 1700000000 = true ↔
        (1700000000 : Int) - sampleEarliestPing.sigTime >
          MASTERNODE_NEW_START_REQUIRED_SECONDS) := by
  decide

/-- C17, amended: ping expiry is a function of the current adjusted time minus
the signing time: wherever that difference fits the 64-bit signed range,
`IsExpired()` is true exactly when `now - sigTime > 10800`
(`MASTERNODE_NEW_START_REQUIRED_SECONDS`), so it is false when the difference is
exactly 10800; two pings and times with the same difference expire alike, and
no member other than `sigTime` is read. -/
theorem C17_ping_expiry (p : CMasternodePing) (now : Int)
    (hlo : -2 ^ 63 ≤ now - p.sigTime) (hhi : now - p.sigTime < 2 ^ 63) :
    (p.IsExpired now = true ↔ now - p.sigTime > MASTERNODE_NEW_START_REQUIRED_SECONDS) ∧
    MASTERNODE_NEW_START_REQUIRED_SECONDS = 10800 ∧
    (now - p.sigTime = 10800 → p.IsExpired now = false) ∧
    (∀ (q : CMasternodePing) (now2 : Int), now2 - q.sigTime = now - p.sigTime →
      q.IsExpired now2 = p.IsExpired now) ∧
    (∀ q : CMasternodePing, q.sigTime = p.sigTime → q.IsExpired now = p.IsExpired now) := by
  have hw := int64_wrap_of_fits (now - p.sigTime) hlo hhi
  have hiff : p.IsExpired now = true ↔
      now - p.sigTime > MASTERNODE_NEW_START_REQUIRED_SECONDS := by
    simp [CMasternodePing.IsExpired, hw]
  refine ⟨hiff, by decide, ?_, ?_, ?_⟩
  · intro h
    rw [← Bool.not_eq_true, hiff, h]
    decide
  · intro q now2 h
    simp [CMasternodePing.IsExpired, h]
  · intro q h
    simp [CMasternodePing.IsExpired, h]

/-- C17, amended, evaluated: a ping signed at time 1000 is not expired at 11800 (difference
exactly 10800) and is expired one second later. -/
theorem C17_ping_expiry_witness :
    CMasternodePing.IsExpired 11800 { sigTime := 1000 } = false ∧
    CMasternodePing.IsExpired 11801 { sigTime := 1000 } = true :=
  ⟨(C17_ping_expiry { sigTime := 1000 } 11800 (by decide) (by decide)).2.2.1 (by decide),
    by decide⟩

/-! ## Verification records -/

namespace CMasternodeVerification

theorem GetHashStream_eq (c : Codec) (v : CMasternodeVerification) :
    GetHashStream c v =
      c.serOutPoint v.masternodeOutpoint1 ++ [0] ++ [255, 255, 255, 255] ++
      c.serOutPoint v.masternodeOutpoint2 ++ [0] ++ [255, 255, 255, 255] ++
      c.serService v.addr ++ c.serInt v.nonce ++ c.serInt v.nBlockHeight := by
  have h8 : ser_uint8 0 = [0] := by decide
  have h32 : ser_uint32 0xffffffff = [255, 255, 255, 255] := by decide
  simp only [GetHashStream, h8, h32, List.nil_append]

theorem GetSignatureHash2Stream_eq (c : Codec) (v : CMasternodeVerification) (bh : uint256) :
    GetSignatureHash2Stream c v bh =
      c.serOutPoint v.masternodeOutpoint1 ++ (c.serOutPoint v.masternodeOutpoint2 ++
        (c.serService v.addr ++ (c.serInt v.nonce ++ c.serUint256 bh))) := by
  simp only [GetSignatureHash2Stream, List.nil_append, List.append_assoc]

end CMasternodeVerification

/-- C18: `CMasternodeVerification::GetHash` hashes a byte layout of its own:
serialize(masternodeOutpoint1), one zero byte, the four bytes of 0xffffffff,
serialize(masternodeOutpoint2), one zero byte, the four bytes of 0xffffffff,
serialize(addr), serialize(nonce), serialize(nBlockHeight), in this order. The
output of `SerializationOp` is the seven members one after the other with no
dummy bytes, so the hashed layout is ten bytes longer than the serialization of
the same five members; and `GetHash` does not depend on `vchSig1` and
`vchSig2`. -/
theorem C18_GetHash_layout (c : Codec) (v : CMasternodeVerification) :
    CMasternodeVerification.GetHash c v = c.Hash (CMasternodeVerification.GetHashStream c v) ∧
    CMasternodeVerification.GetHashStream c v =
      c.serOutPoint v.masternodeOutpoint1 ++ [0] ++ [255, 255, 255, 255] ++
      c.serOutPoint v.masternodeOutpoint2 ++ [0] ++ [255, 255, 255, 255] ++
      c.serService v.addr ++ c.serInt v.nonce ++ c.serInt v.nBlockHeight ∧
    (∀ s : CDataStream, CMasternodeVerification.SerializationOp c v s =
      s ++ (c.serOutPoint v.masternodeOutpoint1 ++ c.serOutPoint v.masternodeOutpoint2 ++
        c.serService v.addr ++ c.serInt v.nonce ++ c.serInt v.nBlockHeight ++
        c.serVector v.vchSig1 ++ c.serVector v.vchSig2)) ∧
    (CMasternodeVerification.GetHashStream c v).length + (c.serVector v.vchSig1).length +
        (c.serVector v.vchSig2).length =
      (CMasternodeVerification.SerializationOp c v []).length + 10 ∧
    (∀ sig1 sig2 : List Nat,
      CMasternodeVerification.GetHash c { v with vchSig1 := sig1, vchSig2 := sig2 } =
        CMasternodeVerification.GetHash c v) := by
  refine ⟨rfl, CMasternodeVerification.GetHashStream_eq c v, ?_, ?_, fun _ _ => rfl⟩
  · intro s
    simp only [CMasternodeVerification.SerializationOp, List.append_assoc]
  · rw [CMasternodeVerification.GetHashStream_eq]
    simp only [CMasternodeVerification.SerializationOp, List.length_append, List.length_cons,
      List.length_nil]
    omega

/-- C18 evaluated on the sample record: bytes 36 to 40 of the hashed layout are
the dummy bytes, and the record with other signatures has the same hash. -/
theorem C18_GetHash_layout_witness :
    ((CMasternodeVerification.GetHashStream sampleCodec sampleVerification).drop 36).take 5
      = [0, 255, 255, 255, 255] ∧
    ((CMasternodeVerification.SerializationOp sampleCodec sampleVerification []).drop 36).take 5
      = [8, 0, 0, 0, 0] ∧
    CMasternodeVerification.GetHash sampleCodec
        { sampleVerification with vchSig1 := [9, 9, 9], vchSig2 := [] } =
      CMasternodeVerification.GetHash sampleCodec sampleVerification :=
  ⟨by decide, by decide, (C18_GetHash_layout sampleCodec sampleVerification).2.2.2.2 [9, 9, 9] []⟩

/-- C19: `GetSignatureHash1(blockHash)` is a function of (addr, nonce,
blockHash) only, and `GetSignatureHash2(blockHash)` a function of
(masternodeOutpoint1, masternodeOutpoint2, addr, nonce, blockHash) only: records
that agree on these members give the same hash, whatever their other members
(`nBlockHeight`, `vchSig1`, `vchSig2`, and for the first hash the outpoints)
are. The bytes hashed by `GetSignatureHash2` change when either outpoint is
replaced by one with another serialization of the same length. -/
theorem C19_signature_hashes_bind (c : Codec) (blockHash : uint256) :
    (∀ v w : CMasternodeVerification, v.addr = w.addr → v.nonce = w.nonce →
      CMasternodeVerification.GetSignatureHash1 c v blockHash =
        CMasternodeVerification.GetSignatureHash1 c w blockHash) ∧
    (∀ v w : CMasternodeVerification,
      v.masternodeOutpoint1 = w.masternodeOutpoint1 →
      v.masternodeOutpoint2 = w.masternodeOutpoint2 → v.addr = w.addr → v.nonce = w.nonce →
      CMasternodeVerification.GetSignatureHash2 c v blockHash =
        CMasternodeVerification.GetSignatureHash2 c w blockHash) ∧
    (∀ (v : CMasternodeVerification) (o : COutPoint),
      (c.serOutPoint o).length = (c.serOutPoint v.masternodeOutpoint1).length →
      c.serOutPoint o ≠ c.serOutPoint v.masternodeOutpoint1 →
      CMasternodeVerification.GetSignatureHash2Stream c
          { v with masternodeOutpoint1 := o } blockHash ≠
        CMasternodeVerification.GetSignatureHash2Stream c v blockHash) ∧
    (∀ (v : CMasternodeVerification) (o : COutPoint),
      (c.serOutPoint o).length = (c.serOutPoint v.masternodeOutpoint2).length →
      c.serOutPoint o ≠ c.serOutPoint v.masternodeOutpoint2 →
      CMasternodeVerification.GetSignatureHash2Stream c
          { v with masternodeOutpoint2 := o } blockHash ≠
        CMasternodeVerification.GetSignatureHash2Stream c v blockHash) := by
  refine ⟨?_, ?_, ?_, ?_⟩
  · intro v w ha hn
    simp only [CMasternodeVerification.GetSignatureHash1,
      CMasternodeVerification.GetSignatureHash1Stream, ha, hn]
  · intro v w h1 h2 ha hn
    simp only [CMasternodeVerification.GetSignatureHash2,
      CMasternodeVerification.GetSignatureHash2Stream, h1, h2, ha, hn]
  · intro v o hlen hne heq
    rw [CMasternodeVerification.GetSignatureHash2Stream_eq,
      CMasternodeVerification.GetSignatureHash2Stream_eq] at heq
    exact hne (List.append_inj heq hlen).1
  · intro v o hlen hne heq
    rw [CMasternodeVerification.GetSignatureHash2Stream_eq,
      CMasternodeVerification.GetSignatureHash2Stream_eq] at heq
    exact hne (List.append_inj (List.append_cancel_left heq) hlen).1

/-- C19 evaluated on the sample record: another first outpoint and block height
leave the first signature hash as it was; another block height and other
signatures leave the second as it was; another first outpoint changes the bytes
of the second. -/
theorem C19_signature_hashes_bind_witness :
    CMasternodeVerification.GetSignatureHash1 sampleCodec
        { sampleVerification with masternodeOutpoint1 := ⟨9, 2⟩, nBlockHeight := 7 } 99 =
      CMasternodeVerification.GetSignatureHash1 sampleCodec sampleVerification 99 ∧
    CMasternodeVerification.GetSignatureHash2 sampleCodec
        { sampleVerification with nBlockHeight := 7, vchSig1 := [], vchSig2 := [5] } 99 =
      CMasternodeVerification.GetSignatureHash2 sampleCodec sampleVerification 99 ∧
    CMasternodeVerification.GetSignatureHash2Stream sampleCodec
        { sampleVerification with masternodeOutpoint1 := ⟨9, 2⟩ } 99 ≠
      CMasternodeVerification.GetSignatureHash2Stream sampleCodec sampleVerification 99 :=
  ⟨(C19_signature_hashes_bind sampleCodec 99).1 _ _ rfl rfl,
    (C19_signature_hashes_bind sampleCodec 99).2.1 _ _ rfl rfl rfl rfl,
    (C19_signature_hashes_bind sampleCodec 99).2.2.1 sampleVerification ⟨9, 2⟩
      (by decide) (by decide)⟩

/-- C20, as the claim states it, fails on the sample record: the bytes hashed by
`GetSignatureHash2(99)` are not the layout with the dummy bytes `0x00`,
`0xffffffff` after each outpoint. -/
theorem C20_counterexample :
    CMasternodeVerification.GetSignatureHash2Stream sampleCodec sampleVerification 99 ≠
      sampleCodec.serOutPoint sampleVerification.masternodeOutpoint1 ++ [0] ++
        [255, 255, 255, 255] ++
      sampleCodec.serOutPoint sampleVerification.masternodeOutpoint2 ++ [0] ++
        [255, 255, 255, 255] ++
      sampleCodec.serService sampleVerification.addr ++
      sampleCodec.serInt sampleVerification.nonce ++ sampleCodec.serUint256 99 := by
  decide

/-- C20, amended: no dummy bytes are written when the signature hashes are
computed. The bytes hashed by `GetSignatureHash2(blockHash)` are
serialize(masternodeOutpoint1), serialize(masternodeOutpoint2), serialize(addr),
serialize(nonce), serialize(blockHash), and those hashed by
`GetSignatureHash1(blockHash)` are serialize(addr), serialize(nonce),
serialize(blockHash); the layout with the dummy bytes after each outpoint, the
one of `GetHash`, is ten bytes longer. -/
theorem C20_signature_hash_layout (c : Codec) (v : CMasternodeVerification)
    (blockHash : uint256) :
    CMasternodeVerification.GetSignatureHash2 c v blockHash =
      c.Hash (CMasternodeVerification.GetSignatureHash2Stream c v blockHash) ∧
    CMasternodeVerification.GetSignatureHash2Stream c v blockHash =
      c.serOutPoint v.masternodeOutpoint1 ++ c.serOutPoint v.masternodeOutpoint2 ++
      c.serService v.addr ++ c.serInt v.nonce ++ c.serUint256 blockHash ∧
    CMasternodeVerification.GetSignatureHash1 c v blockHash =
      c.Hash (CMasternodeVerification.GetSignatureHash1Stream c v blockHash) ∧
    CMasternodeVerification.GetSignatureHash1Stream c v blockHash =
      c.serService v.addr ++ c.serInt v.nonce ++ c.serUint256 blockHash ∧
    (c.serOutPoint v.masternodeOutpoint1 ++ [0] ++ [255, 255, 255, 255] ++
      c.serOutPoint v.masternodeOutpoint2 ++ [0] ++ [255, 255, 255, 255] ++
      c.serService v.addr ++ c.serInt v.nonce ++ c.serUint256 blockHash).length =
      (CMasternodeVerification.GetSignatureHash2Stream c v blockHash).length + 10 := by
  refine ⟨rfl, ?_, rfl, ?_, ?_⟩
  · simp only [CMasternodeVerification.GetSignatureHash2Stream, List.nil_append]
  · simp only [CMasternodeVerification.GetSignatureHash1Stream, List.nil_append]
  · simp only [CMasternodeVerification.GetSignatureHash2Stream, List.nil_append,
      List.length_append, List.length_cons, List.length_nil]
    omega

/-- C20, amended, evaluated on the sample record: the second outpoint follows
the first directly, at byte 36. -/
theorem C20_signature_hash_layout_witness :
    ((CMasternodeVerification.GetSignatureHash2Stream sampleCodec sampleVerification 99).drop
      36).take 5 = [8, 0, 0, 0, 0] ∧
    (CMasternodeVerification.GetSignatureHash2Stream sampleCodec sampleVerification 99).length
      = 114 :=
  ⟨by rw [(C20_signature_hash_layout sampleCodec sampleVerification 99).2.1]; decide,
    by decide⟩

/-! ## The state cascade, copies, and the remaining frame properties -/

/-- C21: for a masternode with valid collateral (and so not in the sticky
OUTPOINT_SPENT state), a PoSe score below the ban threshold and a broadcast age
of 200 minutes, which is over `MASTERNODE_NEW_START_REQUIRED_SECONDS` = 180
minutes so that `IsBroadcastedWithin(MASTERNODE_NEW_START_REQUIRED_SECONDS)` is
false, `Check()` sets the state to `MASTERNODE_NEW_START_REQUIRED`, whatever
`lastPing` is. -/
theorem C21_Check_new_start_required (env : CheckEnv) (m : CMasternode)
    (hvalid : env.fCollateralValid = true)
    (hstate : m.nActiveState ≠ CMasternode.MASTERNODE_OUTPOINT_SPENT)
    (hscore : m.nPoSeBanScore < MASTERNODE_POSE_BAN_MAX_SCORE)
    (hage : env.GetAdjustedTime - m.sigTime = 200 * 60) :
    MASTERNODE_NEW_START_REQUIRED_SECONDS = 180 * 60 ∧
    m.IsBroadcastedWithin env.GetAdjustedTime MASTERNODE_NEW_START_REQUIRED_SECONDS = false ∧
    (m.Check env).nActiveState = CMasternode.MASTERNODE_NEW_START_REQUIRED ∧
    (∀ ping : CMasternodePing, (CMasternode.Check env { m with lastPing := ping }).nActiveState =
      CMasternode.MASTERNODE_NEW_START_REQUIRED) := by
  have hw : int64_wrap (env.GetAdjustedTime - m.sigTime) = 12000 := by
    rw [hage]; decide
  have hlt : ¬ (m.nPoSeBanScore ≥ MASTERNODE_POSE_BAN_MAX_SCORE) := not_le.2 hscore
  have hgt : (12000 : Int) > MASTERNODE_NEW_START_REQUIRED_SECONDS := by decide
  refine ⟨rfl, ?_, ?_, ?_⟩
  · simp only [CMasternode.IsBroadcastedWithin, hw]
    decide
  · simp only [CMasternode.Check, hw, hstate, hvalid, hlt, hgt, false_or, if_false, if_true,
      Bool.true_eq_false]
  · intro ping
    simp only [CMasternode.Check, hw, hstate, hvalid, hlt, hgt, false_or, if_false, if_true,
      Bool.true_eq_false]

/-- C21 evaluated: the sample masternode was announced 200 minutes ago and
pinged 100 seconds ago. -/
theorem C21_Check_new_start_required_witness :
    sampleCheckEnv.GetAdjustedTime - sampleMasternode.lastPing.sigTime = 100 ∧
    (sampleMasternode.Check sampleCheckEnv).nActiveState =
      CMasternode.MASTERNODE_NEW_START_REQUIRED :=
  ⟨by decide,
    (C21_Check_new_start_required sampleCheckEnv sampleMasternode (by decide) (by decide)
      (by decide) (by decide)).2.2.1⟩

theorem votes_copyNodesFrom (l : List ListNode) : ∀ next : Nat,
    (copyNodesFrom next l).map ListNode.vote = l.map ListNode.vote := by
  induction l with
  | nil => intro next; rfl
  | cons nd rest ih => intro next; simp [copyNodesFrom, ih]

theorem listHashes_copyNodesFrom (l : List ListNode) (next : Nat) :
    listHashes (copyNodesFrom next l) = listHashes l := by
  have h := congrArg (List.map CGovernanceVote.GetHash) (votes_copyNodesFrom l next)
  simpa [listHashes, List.map_map] using h

theorem length_copyNodesFrom (l : List ListNode) (next : Nat) :
    (copyNodesFrom next l).length = l.length := by
  have h := congrArg List.length (votes_copyNodesFrom l next)
  simpa using h

theorem dropRepeatedHashes_snoc {α : Type} (hashOf : α → uint256) (xs : List α) (x : α) :
    ∀ s : List uint256, dropRepeatedHashes hashOf s (xs ++ [x]) =
      dropRepeatedHashes hashOf s xs ++
        (if hashOf x ∈ s ∨ hashOf x ∈ xs.map hashOf then [] else [x]) := by
  induction xs with
  | nil =>
    intro s
    by_cases h : hashOf x ∈ s <;> simp [dropRepeatedHashes, h]
  | cons y ys ih =>
    intro s
    by_cases hy : hashOf y ∈ s
    · have e1 : dropRepeatedHashes hashOf s (y :: ys ++ [x]) =
          dropRepeatedHashes hashOf s (ys ++ [x]) := by
        simp [dropRepeatedHashes, hy]
      have e2 : dropRepeatedHashes hashOf s (y :: ys) = dropRepeatedHashes hashOf s ys := by
        simp [dropRepeatedHashes, hy]
      rw [e1, e2, ih s]
      congr 1
      by_cases hx : hashOf x ∈ s
      · simp [hx]
      · have hxy : hashOf x ≠ hashOf y := fun e => hx (e ▸ hy)
        simp [hx, hxy]
    · have e1 : dropRepeatedHashes hashOf s (y :: ys ++ [x]) =
          y :: dropRepeatedHashes hashOf (hashOf y :: s) (ys ++ [x]) := by
        simp [dropRepeatedHashes, hy]
      have e2 : dropRepeatedHashes hashOf s (y :: ys) =
          y :: dropRepeatedHashes hashOf (hashOf y :: s) ys := by
        simp [dropRepeatedHashes, hy]
      rw [e1, e2, ih (hashOf y :: s), List.cons_append]
      congr 2
      by_cases hxy : hashOf x = hashOf y
      · simp [hxy]
      · by_cases hx : hashOf x ∈ s <;> simp [hx, hxy]

theorem RebuildIndex_count_length_size (f : CGovernanceObjectVoteFile) :
    f.RebuildIndex.nMemoryVotes = (f.RebuildIndex.listVotes.length : Int) ∧
    f.RebuildIndex.listVotes.length = f.RebuildIndex.mapVoteIndex.size := by
  rw [CGovernanceObjectVoteFile.RebuildIndex_eq]
  exact ⟨rfl, by simp [vote_m_t.size]⟩

/-- C22: the copy of a ledger satisfying the ledger invariant has the same vote
sequence in the same order, the same count, and the same `HasVote` on every
hash; and the copy of any ledger whatsoever has count = sequence length = index
size. -/
theorem C22_copy_preserves_votes (L : CGovernanceObjectVoteFile) :
    (LedgerInv L →
      L.copy.GetVotes.2 = L.GetVotes.2 ∧
      L.copy.nMemoryVotes = L.nMemoryVotes ∧
      (∀ h : uint256, L.copy.HasVote h = L.HasVote h)) ∧
    L.copy.nMemoryVotes = (L.copy.listVotes.length : Int) ∧
    L.copy.listVotes.length = L.copy.mapVoteIndex.size := by
  constructor
  · intro hL
    obtain ⟨h1, _, h3, _, _, h6, h7, _⟩ := hL
    have hkeep : dropRepeatedHashes (fun nd : ListNode => nd.vote.GetHash) []
        (copyNodesFrom 1 L.listVotes) = copyNodesFrom 1 L.listVotes := by
      apply dropRepeatedHashes_eq_self
      · have := listHashes_copyNodesFrom L.listVotes 1
        simp only [listHashes] at this h3
        rw [this]; exact h3
      · intro h _; simp
    simp only [CGovernanceObjectVoteFile.copy, CGovernanceObjectVoteFile.RebuildIndex_eq, hkeep]
    refine ⟨?_, ?_, ?_⟩
    · simp [CGovernanceObjectVoteFile.GetVotes, votes_copyNodesFrom]
    · simp [length_copyNodesFrom, h1]
    · intro h
      rw [Bool.eq_iff_iff, CGovernanceObjectVoteFile.HasVote_iff,
        CGovernanceObjectVoteFile.HasVote_iff]
      have hk : vote_m_t.keys ((copyNodesFrom 1 L.listVotes).map
          (fun nd => (nd.vote.GetHash, nd.addr))) = listHashes L.listVotes := by
        rw [← listHashes_copyNodesFrom L.listVotes 1]
        simp [vote_m_t.keys, listHashes]
      simp only [hk]
      exact ⟨h7 h, h6 h⟩
  · exact RebuildIndex_count_length_size _

/-- C22 evaluated: the copy of the sample ledger, and the copy of a ledger with
a repeated hash, a wrong count and an empty index. -/
theorem C22_copy_preserves_votes_witness :
    LedgerInv sampleLedger ∧
    sampleLedger.copy.GetVotes.2 = [sampleVote3, sampleVote2, sampleVote1] ∧
    (CGovernanceObjectVoteFile.copy
      { nMemoryVotes := 9, listVotes := [⟨4, sampleVote1⟩, ⟨6, sampleVote1b⟩],
        mapVoteIndex := [] }).nMemoryVotes = 1 :=
  ⟨by decide,
    by rw [((C22_copy_preserves_votes sampleLedger).1 (by decide)).1]; decide,
    by decide⟩

/-- C23: `RebuildIndex` keeps, for each hash, the first vote with that hash in
sequence order and deletes the later ones, the survivors keeping their order:
the resulting sequence is the input without every vote whose hash is the hash
of an earlier element (the last element of a sequence survives exactly when no
element before it has its hash); so a sequence with pairwise distinct hashes is
left as it is, and `RebuildIndex` applied twice gives the ledger it gives
applied once. -/
theorem C23_RebuildIndex_keeps_first (f : CGovernanceObjectVoteFile) :
    f.RebuildIndex.GetVotes.2 = dropRepeatedHashes CGovernanceVote.GetHash [] f.GetVotes.2 ∧
    (∀ (n : Int) (m : vote_m_t) (front : List ListNode) (nd : ListNode),
      (CGovernanceObjectVoteFile.RebuildIndex
          { nMemoryVotes := n, listVotes := front ++ [nd], mapVoteIndex := m }).listVotes =
        (CGovernanceObjectVoteFile.RebuildIndex
          { nMemoryVotes := n, listVotes := front, mapVoteIndex := m }).listVotes ++
          (if nd.vote.GetHash ∈ listHashes front then [] else [nd])) ∧
    ((f.GetVotes.2.map CGovernanceVote.GetHash).Nodup →
      f.RebuildIndex.listVotes = f.listVotes) ∧
    f.RebuildIndex.RebuildIndex = f.RebuildIndex := by
  have hkept : dropRepeatedHashes (fun nd : ListNode => nd.vote.GetHash) []
      (dropRepeatedHashes (fun nd : ListNode => nd.vote.GetHash) [] f.listVotes) =
      dropRepeatedHashes (fun nd : ListNode => nd.vote.GetHash) [] f.listVotes := by
    apply dropRepeatedHashes_eq_self
    · exact dropRepeatedHashes_nodup _ _ _
    · intro h _; simp
  refine ⟨?_, ?_, ?_, ?_⟩
  · rw [CGovernanceObjectVoteFile.RebuildIndex_eq]
    exact dropRepeatedHashes_map ListNode.vote CGovernanceVote.GetHash f.listVotes []
  · intro n m front nd
    simp only [CGovernanceObjectVoteFile.RebuildIndex_eq, dropRepeatedHashes_snoc,
      List.not_mem_nil, false_or, listHashes]
  · intro hnd
    rw [CGovernanceObjectVoteFile.RebuildIndex_eq]
    apply dropRepeatedHashes_eq_self
    · simpa [CGovernanceObjectVoteFile.GetVotes, List.map_map] using hnd
    · intro h _; simp
  · rw [CGovernanceObjectVoteFile.RebuildIndex_eq f.RebuildIndex,
      CGovernanceObjectVoteFile.RebuildIndex_eq f]
    simp only [hkept]

/-- C23 evaluated on a sequence whose third vote repeats the hash of the first:
the first stays, the third goes. -/
theorem C23_RebuildIndex_keeps_first_witness :
    (CGovernanceObjectVoteFile.RebuildIndex
      { nMemoryVotes := 3
        listVotes := [⟨1, sampleVote1b⟩, ⟨2, sampleVote2⟩, ⟨3, sampleVote1⟩]
        mapVoteIndex := [] }).GetVotes.2 = [sampleVote1b, sampleVote2] ∧
    sampleLedger.RebuildIndex.listVotes = sampleLedger.listVotes :=
  ⟨by decide, (C23_RebuildIndex_keeps_first sampleLedger).2.2.1 (by decide)⟩

/-- C24: `IncreasePoSeBanScore`, `DecreasePoSeBanScore` and `PoSeBan` change no
member of the masternode other than `nPoSeBanScore`; `nActiveState` stays, so
right after `PoSeBan()` on a node whose state is not `MASTERNODE_POSE_BAN`,
`IsPoSeBanned()` is still false and `IsEnabled()` has the value it had. -/
theorem C24_PoSe_calls_frame (m : CMasternode) :
    m.IncreasePoSeBanScore = { m with nPoSeBanScore := m.IncreasePoSeBanScore.nPoSeBanScore } ∧
    m.DecreasePoSeBanScore = { m with nPoSeBanScore := m.DecreasePoSeBanScore.nPoSeBanScore } ∧
    m.PoSeBan = { m with nPoSeBanScore := m.PoSeBan.nPoSeBanScore } ∧
    m.IncreasePoSeBanScore.nActiveState = m.nActiveState ∧
    m.DecreasePoSeBanScore.nActiveState = m.nActiveState ∧
    m.PoSeBan.nActiveState = m.nActiveState ∧
    (m.nActiveState ≠ CMasternode.MASTERNODE_POSE_BAN → m.PoSeBan.IsPoSeBanned = false) ∧
    m.PoSeBan.IsEnabled = m.IsEnabled := by
  have hi : m.IncreasePoSeBanScore =
      { m with nPoSeBanScore := m.IncreasePoSeBanScore.nPoSeBanScore } := by
    unfold CMasternode.IncreasePoSeBanScore
    split <;> rfl
  have hd : m.DecreasePoSeBanScore =
      { m with nPoSeBanScore := m.DecreasePoSeBanScore.nPoSeBanScore } := by
    unfold CMasternode.DecreasePoSeBanScore
    split <;> rfl
  refine ⟨hi, hd, rfl, ?_, ?_, rfl, ?_, rfl⟩
  · rw [hi]
  · rw [hd]
  · intro h
    simp [CMasternode.IsPoSeBanned, CMasternode.PoSeBan, h]

/-- C24 evaluated on the sample masternode, which is enabled: after `PoSeBan()`
the score is 5, the node is still enabled and not yet PoSe-banned. -/
theorem C24_PoSe_calls_frame_witness :
    sampleMasternode.PoSeBan.nPoSeBanScore = 5 ∧
    sampleMasternode.PoSeBan.IsEnabled = true ∧
    sampleMasternode.PoSeBan.IsPoSeBanned = false ∧
    sampleMasternode.PoSeBan.lastPing = sampleMasternode.lastPing :=
  ⟨by decide, by decide,
    (C24_PoSe_calls_frame sampleMasternode).2.2.2.2.2.2.1 (by decide), by decide⟩

/-- C25, as the claim states it for every masternode and every time, fails: at
time 1700000000 a masternode whose truthy last ping was signed at the least
64-bit value counts as pinged within 600 seconds, though `T - lastPing.sigTime`
is not below 600, the 64-bit difference having wrapped. -/
theorem C25_counterexample :
    sampleEarliestPingMasternode.lastPing.operator_bool = true ∧
    ¬ (sampleEarliestPingMasternode.IsPingedWithin 1700000000 600 (-1) = true ↔
        (1700000000 : Int) - sampleEarliestPingMasternode.lastPing.sigTime < 600) := by
  decide

/-- C25, amended: `IsPingedWithin(nSeconds, nTimeToCheckAt)` is false whenever `lastPing`
is falsy (default outpoint and zero block hash), whatever `lastPing.sigTime` is;
otherwise, with T the current adjusted time when `nTimeToCheckAt` is -1 and
`nTimeToCheckAt` otherwise, and wherever `T - lastPing.sigTime` fits the 64-bit
signed range, it is true exactly when `T - lastPing.sigTime < nSeconds`
(strictly); a passed time of -1 is treated as the current time; and the result
is monotone in `nSeconds`. -/
theorem C25_IsPingedWithin (m : CMasternode) (now nSeconds nTimeToCheckAt : Int) :
    (m.lastPing.masternodeOutpoint = COutPoint.Null → m.lastPing.blockHash = 0 →
      m.IsPingedWithin now nSeconds nTimeToCheckAt = false) ∧
    (m.lastPing.operator_bool = false → m.IsPingedWithin now nSeconds nTimeToCheckAt = false) ∧
    (m.lastPing.operator_bool = true →
      -2 ^ 63 ≤ (if nTimeToCheckAt = -1 then now else nTimeToCheckAt) - m.lastPing.sigTime →
      (if nTimeToCheckAt = -1 then now else nTimeToCheckAt) - m.lastPing.sigTime < 2 ^ 63 →
      (m.IsPingedWithin now nSeconds nTimeToCheckAt = true ↔
        (if nTimeToCheckAt = -1 then now else nTimeToCheckAt) - m.lastPing.sigTime
          < nSeconds)) ∧
    m.IsPingedWithin now nSeconds (-1) = m.IsPingedWithin now nSeconds now ∧
    (∀ nMore : Int, nSeconds ≤ nMore →
      m.IsPingedWithin now nSeconds nTimeToCheckAt = true →
      m.IsPingedWithin now nMore nTimeToCheckAt = true) := by
  have hfalsy : m.lastPing.operator_bool = false →
      m.IsPingedWithin now nSeconds nTimeToCheckAt = false := by
    intro h
    simp [CMasternode.IsPingedWithin, h]
  refine ⟨?_, hfalsy, ?_, ?_, ?_⟩
  · intro ho hb
    apply hfalsy
    simp [CMasternodePing.operator_bool, CMasternodePing.operator_ne,
      CMasternodePing.operator_eq, CMasternodePing.default, ho, hb]
  · intro ht hlo hhi
    have hw := int64_wrap_of_fits _ hlo hhi
    simp only [CMasternode.IsPingedWithin, ht, Bool.not_true, Bool.false_eq_true, if_false, hw,
      decide_eq_true_eq]
  · by_cases hn : now = -1
    · simp [CMasternode.IsPingedWithin, hn]
    · simp [CMasternode.IsPingedWithin, hn]
  · intro nMore hle h
    cases hb : m.lastPing.operator_bool with
    | false =>
      rw [hfalsy hb] at h
      exact absurd h (by decide)
    | true =>
      simp only [CMasternode.IsPingedWithin, hb, Bool.not_true, Bool.false_eq_true, if_false,
        decide_eq_true_eq] at h ⊢
      omega

/-- C25, amended, evaluated on the sample masternode (ping signed at 12900) at time 13000:
pinged within 101 seconds but not within 100; and never pinged when the ping is
the default one. -/
theorem C25_IsPingedWithin_witness :
    sampleMasternode.IsPingedWithin 13000 101 (-1) = true ∧
    sampleMasternode.IsPingedWithin 13000 100 (-1) = false ∧
    sampleMasternode.IsPingedWithin 0 101 13000 = true ∧
    CMasternode.IsPingedWithin 13000
      { sampleMasternode with lastPing := { sigTime := 12999 } } 1000000 (-1) = false :=
  ⟨((C25_IsPingedWithin sampleMasternode 13000 101 (-1)).2.2.1 (by decide) (by decide)
      (by decide)).2 (by decide),
    by decide, by decide, by decide⟩

end Polis
